import Mathlib

/-!
Verification of the report-generation subsystem of a plagiarism-detection
tool (`plagiarism_checker/reporting.py`) against its specification.

The development shallowly embeds the module: Python dicts used as loose
records become association lists or structures with `Option` fields
(`.get(k, default)` becomes `Option.getD`), Python floats become exact
rationals (`Rat`), machine-level file writing becomes an explicit
filesystem state, `json.dumps(..., ensure_ascii=False, indent=2)` becomes
a character-list renderer proved invertible by a `json.loads` model, and
`str(tuple(pair))` becomes a model of CPython string `repr` proved
injective.  Fallible operations return `Except`/`Option`.
-/

namespace PlagiarismReporting

/-! ## Basic character and digit utilities -/

/-- Lowercase hexadecimal digit character for `d < 16` (as CPython prints). -/
def hexChar (d : Nat) : Char :=
  if d < 10 then Char.ofNat (48 + d) else Char.ofNat (87 + d)

/-- Value of a hexadecimal digit character, if it is one. -/
def hexCharVal (c : Char) : Option Nat :=
  if 48 ≤ c.toNat ∧ c.toNat ≤ 57 then some (c.toNat - 48)
  else if 97 ≤ c.toNat ∧ c.toNat ≤ 102 then some (c.toNat - 87)
  else if 65 ≤ c.toNat ∧ c.toNat ≤ 70 then some (c.toNat - 55)
  else none

/-- Decimal digit test (ASCII `0`-`9`). -/
def isDig (c : Char) : Bool := 48 ≤ c.toNat && c.toNat ≤ 57

/-- Decimal digit characters of a natural number, most significant first,
exactly as Python `str` prints it (`0` prints as `"0"`). -/
def natDecL (n : Nat) : List Char :=
  if n = 0 then [Char.ofNat 48]
  else (Nat.digits 10 n).reverse.map (fun d => Char.ofNat (48 + d))

/-- Decimal characters of an integer: optional minus sign then digits,
as Python `str` prints it. -/
def intDecL (i : Int) : List Char :=
  (if i < 0 then [Char.ofNat 45] else []) ++ natDecL i.natAbs

/-- Numeric value of a run of decimal digit characters. -/
def digitsVal (ds : List Char) : Nat :=
  ds.foldl (fun a c => a * 10 + (c.toNat - 48)) 0

/-- Whitespace characters recognised by Python `str.strip` (ASCII range). -/
def pyIsSpace (c : Char) : Bool :=
  c == ' ' || c == '\t' || c == '\n' || c == '\r' ||
  c == Char.ofNat 11 || c == Char.ofNat 12

/-- Python `s.strip()` on a character list: drop leading and trailing
whitespace. -/
def pyStripL (l : List Char) : List Char :=
  ((l.dropWhile pyIsSpace).reverse.dropWhile pyIsSpace).reverse

/-- Python `s.strip()`. -/
def pyStrip (s : String) : String := ⟨pyStripL s.data⟩

/-- Python `s.replace(chr(10), chr(32))`: each newline becomes a space
(both are single characters, so this is a character map). -/
def pyReplaceNl (s : String) : String :=
  ⟨s.data.map (fun c => if c = '\n' then ' ' else c)⟩

/-- Sequential fallible map: apply `f` to each element in order, stopping
at the first failure (a Python `for` loop whose body may raise). -/
def exMapM {α β : Type} (f : α → Except String β) :
    List α → Except String (List β)
  | [] => .ok []
  | a :: t => do
      let y ← f a
      let ys ← exMapM f t
      return y :: ys

/-- Update key `k` of an association list to `v`: a present key keeps its
position and gets the new value (as in a Python dict assignment); an
absent key is appended at the end (insertion order). -/
def assocSet {κ α : Type} [DecidableEq κ] :
    List (κ × α) → κ → α → List (κ × α)
  | [], k, v => [(k, v)]
  | (k0, v0) :: t, k, v =>
      if k0 = k then (k0, v) :: t else (k0, v0) :: assocSet t k v

/-! ## Data model for the narrative report (`write_word_report`)

The source reads `stats` and `details` entries with `dict.get(key, default)`,
so every consumed field is optional; `Option` fields model key presence and
`Option.getD` models `.get`. Similarity and score values are exact rationals
in place of Python floats. -/

/-- A per-pair statistics record as the narrative report consumes it
(fields read with `.get`). -/
structure NStat where
  pair : Option (String × String) := none
  count : Option Int := none
  mean_sim : Option Rat := none
  score : Option Rat := none
deriving DecidableEq

/-- One matched-segment hit as the narrative report consumes it. -/
structure NHit where
  sid_i : Option String := none
  sid_j : Option String := none
  sent_id_i : Option Int := none
  sent_id_j : Option Int := none
  text_i : Option String := none
  text_j : Option String := none
  sim : Option Rat := none
  adjusted_sim : Option Rat := none
  citation_penalty : Option Rat := none
deriving DecidableEq

/-- A per-pair detail record as the narrative report consumes it. -/
structure NDetail where
  pair : Option (String × String) := none
  count : Option Int := none
  mean_sim : Option Rat := none
  score : Option Rat := none
  hits : Option (List NHit) := none
deriving DecidableEq

/-- Source: `item.get(\"score\", 0.0)`. -/
def nScore (it : NStat) : Rat := it.score.getD 0

/-- Source: `total_pairs = len(stats)`. -/
def totalPairs (stats : List NStat) : Nat := stats.length

/-- Source: `total_matches = sum(item.get(\"count\", 0) for item in stats)`. -/
def totalMatches (stats : List NStat) : Int :=
  (stats.map (fun it => it.count.getD 0)).sum

/-- Source: `avg_pair_sim = (sum(item.get(\"mean_sim\", 0.0) for item in stats)
/ total_pairs) if total_pairs else 0.0`. -/
def avgPairSim (stats : List NStat) : Rat :=
  if totalPairs stats ≠ 0 then
    (stats.map (fun it => it.mean_sim.getD 0)).sum / (totalPairs stats : Rat)
  else 0

/-- Source: `high_risk = sum(1 for item in stats if item.get(\"score\", 0.0) >= 0.7)`. -/
def highRisk (stats : List NStat) : Nat :=
  stats.countP (fun it => decide ((7 : Rat)/10 ≤ nScore it))

/-- Source: `medium_risk = sum(1 for item in stats
if 0.5 <= item.get(\"score\", 0.0) < 0.7)`. -/
def mediumRisk (stats : List NStat) : Nat :=
  stats.countP (fun it => decide ((1 : Rat)/2 ≤ nScore it ∧ nScore it < (7 : Rat)/10))

/-- Source: `low_risk = total_pairs - high_risk - medium_risk`. -/
def lowRisk (stats : List NStat) : Nat :=
  totalPairs stats - highRisk stats - mediumRisk stats

/-- A stats record carrying only a score, for stating boundary examples. -/
def scoreOnly (q : Rat) : NStat := { score := some q }

/-- The slice of hits the narrative report renders for one detail record.
Source: `hits = detail.get(\"hits\", [])[:top_n_per_pair]` (a positional
slice; the bound is a hit count). -/
def hitsShown (d : NDetail) (topN : Nat) : List NHit :=
  (d.hits.getD []).take topN

/-- The data of one rendered hit paragraph group: the similarity figure
shown, whether the italic possible-citation run is added, and the two
excerpt lines' cleaned text.  Numeric formatting (`.1%`) is abstracted:
the exact value is carried. -/
structure RHit where
  simShown : Rat
  citedNote : Bool
  textI : String
  textJ : String
deriving DecidableEq

/-- Rendering of one hit. Source lines: `sim = hit.get(\"adjusted_sim\",
hit.get(\"sim\", 0.0))`, `penalty = hit.get(\"citation_penalty\", 1.0)`,
the `penalty < 1.0` italic run, and
`hit.get(\"text_i\", \"\").replace(chr(10), chr(32)).strip()` (same for j). -/
def renderHit (h : NHit) : RHit where
  simShown := h.adjusted_sim.getD (h.sim.getD 0)
  citedNote := decide (h.citation_penalty.getD 1 < 1)
  textI := pyStrip (pyReplaceNl (h.text_i.getD ""))
  textJ := pyStrip (pyReplaceNl (h.text_j.getD ""))

/-- The hit paragraphs rendered for one detail record: the positional
slice, in original order, each rendered by `renderHit`. -/
def pairHitBlocks (d : NDetail) (topN : Nat) : List RHit :=
  (hitsShown d topN).map renderHit

/-! ## Tabular exporter (`write_summary_csv`, `write_paragraph_summary`)

The source passes loose dicts, so the tabular operations are modelled over
association-list records whose values are tagged cells.  `csv.DictWriter`
is modelled with its default configuration: `extrasaction` raises a
`ValueError` when a row carries a key outside `fieldnames`, and `restval`
(the empty string) silently fills a missing key.  The output is the matrix
of cells (header row, then one row per record); character-level CSV
quoting is below the level of any claim and is not modelled. -/

/-- A value stored in a loose stats record / written to a table cell. -/
inductive CVal where
  | str (s : String)
  | int (i : Int)
  | rat (q : Rat)
  | pr (p : String × String)
deriving DecidableEq

/-- A loose record: an association list in insertion order (dict model). -/
abbrev CRec : Type := List (String × CVal)

/-- Source: `SUMMARY_HEADER` (sentence-level fixed columns). -/
def SUMMARY_HEADER : List String :=
  ["pair", "count", "mean_sim", "max_sim", "coverage_min", "coverage_a",
   "coverage_b", "student_a_sent_total", "student_b_sent_total", "score"]

/-- Source: `PARA_SUMMARY_HEADER` (paragraph-level fixed columns). -/
def PARA_SUMMARY_HEADER : List String :=
  ["pair", "count", "mean_sim", "max_sim", "coverage_min", "coverage_a",
   "coverage_b", "student_a_para_total", "student_b_para_total", "score"]

/-- Source: the per-record loop body `a, b = item[\"pair\"]; row = dict(item);
row[\"pair\"] = ...`.  A record without a `pair` key raises `KeyError`; a
`pair` value that is not a two-element pair cannot be unpacked
(`TypeError`).  On success the copied record has its `pair` value replaced
by the formatted string. -/
def prepRow (item : CRec) : Except String CRec :=
  match List.lookup "pair" item with
  | none => .error "KeyError: pair"
  | some (CVal.pr (a, b)) =>
      .ok (assocSet item "pair" (.str ("(" ++ a ++ ", " ++ b ++ ")")))
  | some _ => .error "TypeError: cannot unpack pair"

/-- Source: `csv.DictWriter` writing one row dict.  With the default
`extrasaction` a key outside `fieldnames` raises `ValueError`; otherwise
the row is the fields in header order, a missing field filled with the
default `restval` (the empty string). -/
def dictWriterRow (fieldnames : List String) (row : CRec) :
    Except String (List CVal) :=
  if row.all (fun kv => fieldnames.contains kv.1) then
    .ok (fieldnames.map (fun k => (List.lookup k row).getD (.str "")))
  else .error "ValueError: dict contains fields not in fieldnames"

/-- The rows a tabular export writes for a given header: the prepared
per-record rows (first loop of the source), then a header row and one data
row per record via `DictWriter.writeheader` / `writerows`. -/
def writeTableRows (header : List String) (stats : List CRec) :
    Except String (List (List CVal)) :=
  match exMapM prepRow stats with
  | .error e => .error e
  | .ok rows =>
      match exMapM (dictWriterRow header) rows with
      | .error e => .error e
      | .ok dataRows => .ok ((header.map CVal.str) :: dataRows)

/-- Source: `write_summary_csv` (its written table). -/
def writeSummaryCsv (stats : List CRec) : Except String (List (List CVal)) :=
  writeTableRows SUMMARY_HEADER stats

/-- Source: `write_paragraph_summary` (its written table). -/
def writeParagraphSummary (stats : List CRec) :
    Except String (List (List CVal)) :=
  writeTableRows PARA_SUMMARY_HEADER stats

/-- A fully-populated sentence-level stats record (typed view used by the
claims about well-formed inputs). -/
structure SRec where
  pair : String × String
  count : Int
  mean_sim : Rat
  max_sim : Rat
  coverage_min : Rat
  coverage_a : Rat
  coverage_b : Rat
  a_total : Int
  b_total : Int
  score : Rat
deriving DecidableEq

/-- The loose record of a fully-populated stats record, fields in the
fixed column order. -/
def SRec.toRec (r : SRec) : CRec :=
  [("pair", .pr r.pair), ("count", .int r.count),
   ("mean_sim", .rat r.mean_sim), ("max_sim", .rat r.max_sim),
   ("coverage_min", .rat r.coverage_min), ("coverage_a", .rat r.coverage_a),
   ("coverage_b", .rat r.coverage_b), ("student_a_sent_total", .int r.a_total),
   ("student_b_sent_total", .int r.b_total), ("score", .rat r.score)]

/-- The data row the sentence-level table holds for a fully-populated
record: the pair formatted `(A, B)` in given order, then the remaining
values in column order. -/
def SRec.row (r : SRec) : List CVal :=
  [.str ("(" ++ r.pair.1 ++ ", " ++ r.pair.2 ++ ")"), .int r.count,
   .rat r.mean_sim, .rat r.max_sim, .rat r.coverage_min, .rat r.coverage_a,
   .rat r.coverage_b, .int r.a_total, .int r.b_total, .rat r.score]

/-- The copied record of a fully-populated stats record after the `pair`
substitution of the export loop. -/
def SRec.prepped (r : SRec) : CRec :=
  [("pair", .str ("(" ++ r.pair.1 ++ ", " ++ r.pair.2 ++ ")")),
   ("count", .int r.count), ("mean_sim", .rat r.mean_sim),
   ("max_sim", .rat r.max_sim), ("coverage_min", .rat r.coverage_min),
   ("coverage_a", .rat r.coverage_a), ("coverage_b", .rat r.coverage_b),
   ("student_a_sent_total", .int r.a_total),
   ("student_b_sent_total", .int r.b_total), ("score", .rat r.score)]

/-! ## Filesystem model

A path is its list of components; the state holds the set of existing
directories and a map from file paths to character contents.  `Path.write_text`
(and the underlying `open`) requires the parent directory to exist (a
top-level relative path writes into the working directory, which always
exists); `Path.parent.mkdir(parents=True, exist_ok=True)` creates every
missing ancestor. -/

/-- Filesystem state: existing directories and files with their text. -/
structure FS where
  dirs : List (List String)
  files : List (List String × List Char)
deriving DecidableEq

/-- A filesystem with no directories or files (only the working directory). -/
def emptyFS : FS := ⟨[], []⟩

/-- Does the parent directory of `p` exist (the working directory always
does)? -/
def parentOk (fs : FS) (p : List String) : Bool :=
  p.dropLast.isEmpty || fs.dirs.contains p.dropLast

/-- Source: `path.write_text(content, encoding=\"utf-8\")`: fails with
`FileNotFoundError` when the parent directory is missing, else stores the
content (overwriting). -/
def fsWrite (fs : FS) (p : List String) (content : List Char) :
    Except String FS :=
  if parentOk fs p then .ok ⟨fs.dirs, assocSet fs.files p content⟩
  else .error "FileNotFoundError"

/-- Contents of the file at `p`, if present. -/
def fsRead (fs : FS) (p : List String) : Option (List Char) :=
  List.lookup p fs.files

/-- All non-empty prefixes of a directory path (the ancestors `mkdir
parents=True` creates, the directory itself included). -/
def ancestors (d : List String) : List (List String) :=
  (List.range d.length).map (fun i => d.take (i + 1))

/-- Source: `path.parent.mkdir(parents=True, exist_ok=True)`. -/
def mkdirParentsOf (fs : FS) (p : List String) : FS :=
  ⟨fs.dirs ++ ancestors p.dropLast, fs.files⟩

/-! ## CPython string `repr` (for `str(tuple(pair))` in `write_evidence_top`)

CPython renders `repr` of a text string by choosing the single-quote
delimiter unless the string contains a single quote and no double quote,
escaping the backslash, the chosen quote, tab, newline and carriage
return, and rendering other non-printable characters numerically (`\xhh`
in the ASCII range).  The model treats characters above the ASCII range
as printable (the identifiers at issue render identically in CPython). -/

/-- The single-quote character. -/
def sq : Char := Char.ofNat 39

/-- The double-quote character. -/
def dq : Char := Char.ofNat 34

/-- Delimiter `repr` picks for a string's characters. -/
def reprQuote (l : List Char) : Char :=
  if l.contains sq && !l.contains dq then dq else sq

/-- Escape of one character inside a `repr` delimited by `q`. -/
def reprEscChar (q c : Char) : List Char :=
  if c = '\\' then ['\\', '\\']
  else if c = q then ['\\', q]
  else if c = '\t' then ['\\', 't']
  else if c = '\n' then ['\\', 'n']
  else if c = '\r' then ['\\', 'r']
  else if c.toNat < 32 ∨ c.toNat = 127 then
    ['\\', 'x', hexChar (c.toNat / 16), hexChar (c.toNat % 16)]
  else [c]

/-- The character list of `repr(s)` for a text string `s`. -/
def pyReprL (l : List Char) : List Char :=
  let q := reprQuote l
  q :: (l.flatMap (reprEscChar q) ++ [q])

/-- Source: `str(tuple(detail[\"pair\"]))` — the ordered-pair display
string: `(` repr of the first component `, ` repr of the second `)`. -/
def pyPairKeyL (a b : List Char) : List Char :=
  '(' :: (pyReprL a ++ ',' :: ' ' :: (pyReprL b ++ [')']))

/-- The evidence-index key of a pair of identifiers, as a string. -/
def pyPairKey (p : String × String) : String :=
  ⟨pyPairKeyL p.1.data p.2.data⟩

/-- Decodes one `repr` escape letter (excluding `\\x`). -/
def reprUnescChar (e : Char) : Option Char :=
  if e = '\\' then some '\\'
  else if e = sq then some sq
  else if e = dq then some dq
  else if e = 't' then some '\t'
  else if e = 'n' then some '\n'
  else if e = 'r' then some '\r'
  else none

/-- Reads the body of a `repr` delimited by `q` up to the closing quote,
undoing the escapes; returns the decoded characters and the remainder
after the closing quote. -/
def reprBody (q : Char) : List Char → Option (List Char × List Char)
  | [] => none
  | '\\' :: 'x' :: h1 :: h2 :: r =>
      (hexCharVal h1).bind fun a =>
        (hexCharVal h2).bind fun b =>
          (reprBody q r).map fun st => (Char.ofNat (16 * a + b) :: st.1, st.2)
  | '\\' :: e :: r =>
      (reprUnescChar e).bind fun c =>
        (reprBody q r).map fun st => (c :: st.1, st.2)
  | c :: r =>
      if c = q then some ([], r)
      else (reprBody q r).map fun st => (c :: st.1, st.2)

/-- Reads one leading string `repr` off a character list. -/
def reprParse : List Char → Option (List Char × List Char)
  | c :: r => if c = sq ∨ c = dq then reprBody c r else none
  | [] => none

/-! ## JSON model (`json.dumps(..., ensure_ascii=False, indent=2)` / `json.loads`)

JSON values cover null, booleans, integers (the numeric leaves the detail
records at issue serialise; Python's shortest-round-trip float text is
outside an exact embedding), strings, arrays and objects.  Arrays and
objects are mutually inductive lists so that structural recursion and
induction stay primitive.  The renderer reproduces `json.dumps` with
`ensure_ascii=False` and `indent=2` character for character; the parser
models `json.loads` on this grammar. -/

mutual
inductive JVal where
  | jnull
  | jbool (b : Bool)
  | jint (i : Int)
  | jstr (s : String)
  | jarr (xs : JList)
  | jobj (ms : JObj)
inductive JList where
  | nil
  | cons (v : JVal) (tl : JList)
inductive JObj where
  | nil
  | cons (k : String) (v : JVal) (tl : JObj)
end

mutual
def JVal.beq : JVal → JVal → Bool
  | .jnull, .jnull => true
  | .jbool a, .jbool b => a == b
  | .jint a, .jint b => a == b
  | .jstr a, .jstr b => a == b
  | .jarr a, .jarr b => JList.beq a b
  | .jobj a, .jobj b => JObj.beq a b
  | _, _ => false
def JList.beq : JList → JList → Bool
  | .nil, .nil => true
  | .cons v t, .cons w u => JVal.beq v w && JList.beq t u
  | _, _ => false
def JObj.beq : JObj → JObj → Bool
  | .nil, .nil => true
  | .cons k v t, .cons k2 w u => k == k2 && JVal.beq v w && JObj.beq t u
  | _, _ => false
end

/-- The opening-brace character. -/
def lb : Char := Char.ofNat 123

/-- The closing-brace character. -/
def rb : Char := Char.ofNat 125

/-- Indentation for nesting level `lvl` under `indent=2`. -/
def pad (lvl : Nat) : List Char := List.replicate (2 * lvl) ' '

/-- JSON escape of one character under `ensure_ascii=False`: the quote,
the backslash and the named control escapes are escaped, other control
characters use `\\uXXXX`, and everything else (all non-ASCII included) is
kept verbatim. -/
def jEscChar (c : Char) : List Char :=
  if c = dq then ['\\', dq]
  else if c = '\\' then ['\\', '\\']
  else if c = Char.ofNat 8 then ['\\', 'b']
  else if c = Char.ofNat 12 then ['\\', 'f']
  else if c = '\n' then ['\\', 'n']
  else if c = '\r' then ['\\', 'r']
  else if c = '\t' then ['\\', 't']
  else if c.toNat < 32 then
    ['\\', 'u', '0', '0', hexChar (c.toNat / 16), hexChar (c.toNat % 16)]
  else [c]

/-- JSON escape of a character list. -/
def jEsc (l : List Char) : List Char := l.flatMap jEscChar

/-- A rendered JSON string: quote, escaped body, quote. -/
def jStrL (s : String) : List Char := dq :: (jEsc s.data ++ [dq])

mutual
/-- Characters `json.dumps(v, ensure_ascii=False, indent=2)` produces when
`v` sits at nesting level `lvl`. -/
def jRender (lvl : Nat) : JVal → List Char
  | .jnull => ['n', 'u', 'l', 'l']
  | .jbool true => ['t', 'r', 'u', 'e']
  | .jbool false => ['f', 'a', 'l', 's', 'e']
  | .jint i => intDecL i
  | .jstr s => jStrL s
  | .jarr .nil => ['[', ']']
  | .jarr (.cons v tl) =>
      '[' :: '\n' :: (pad (lvl + 1) ++ jRenderItems (lvl + 1) v tl
        ++ '\n' :: (pad lvl ++ [']']))
  | .jobj .nil => [lb, rb]
  | .jobj (.cons k v tl) =>
      lb :: '\n' :: (pad (lvl + 1) ++ jRenderMembers (lvl + 1) k v tl
        ++ '\n' :: (pad lvl ++ [rb]))
termination_by v => sizeOf v
decreasing_by all_goals (simp_wf; try omega)
def jRenderItems (lvl : Nat) (v : JVal) : JList → List Char
  | .nil => jRender lvl v
  | .cons w tl =>
      jRender lvl v ++ ',' :: '\n' :: (pad lvl ++ jRenderItems lvl w tl)
termination_by tl => sizeOf v + sizeOf tl
decreasing_by all_goals (simp_wf; try omega)
def jRenderMembers (lvl : Nat) (k : String) (v : JVal) : JObj → List Char
  | .nil => jStrL k ++ ':' :: ' ' :: jRender lvl v
  | .cons k2 v2 tl =>
      jStrL k ++ ':' :: ' ' :: (jRender lvl v
        ++ ',' :: '\n' :: (pad lvl ++ jRenderMembers lvl k2 v2 tl))
termination_by tl => sizeOf v + sizeOf tl
decreasing_by all_goals (simp_wf; try omega)
end

/-- A full dump: the value rendered at top level. -/
def jDumps (v : JVal) : List Char := jRender 0 v

/-- JSON whitespace. -/
def jIsWs (c : Char) : Bool := c == ' ' || c == '\t' || c == '\n' || c == '\r'

/-- Skip leading JSON whitespace. -/
def skipWs (l : List Char) : List Char := l.dropWhile jIsWs

/-- Decodes one JSON escape letter (excluding `\\u`). -/
def jUnescChar (e : Char) : Option Char :=
  if e = dq then some dq
  else if e = '\\' then some '\\'
  else if e = '/' then some '/'
  else if e = 'b' then some (Char.ofNat 8)
  else if e = 'f' then some (Char.ofNat 12)
  else if e = 'n' then some '\n'
  else if e = 'r' then some '\r'
  else if e = 't' then some '\t'
  else none

/-- Four-hex-digit value for a `\\uXXXX` escape. -/
def hex4Val (a b c d : Char) : Option Nat :=
  (hexCharVal a).bind fun va =>
    (hexCharVal b).bind fun vb =>
      (hexCharVal c).bind fun vc =>
        (hexCharVal d).map fun vd => ((va * 16 + vb) * 16 + vc) * 16 + vd

/-- Reads a JSON string body up to the closing quote, undoing escapes. -/
def jStrBody : List Char → Option (List Char × List Char)
  | [] => none
  | '\\' :: 'u' :: a :: b :: c :: d :: r =>
      (hex4Val a b c d).bind fun n =>
        (jStrBody r).map fun st => (Char.ofNat n :: st.1, st.2)
  | '\\' :: e :: r =>
      (jUnescChar e).bind fun ch =>
        (jStrBody r).map fun st => (ch :: st.1, st.2)
  | c :: r =>
      if c = dq then some ([], r)
      else (jStrBody r).map fun st => (c :: st.1, st.2)

/-- Reads a JSON integer: optional minus sign then a non-empty digit run. -/
def jNum : List Char → Option (Int × List Char)
  | [] => none
  | c :: r =>
      if c = Char.ofNat 45 then
        if (r.takeWhile isDig).isEmpty then none
        else some (-(digitsVal (r.takeWhile isDig) : Int), r.dropWhile isDig)
      else if isDig c then
        some ((digitsVal ((c :: r).takeWhile isDig) : Int),
          (c :: r).dropWhile isDig)
      else none

mutual
/-- Fueled model of `json.loads` reading one value (leading whitespace
allowed); returns the value and the remaining input. -/
def jParseVal : Nat → List Char → Option (JVal × List Char)
  | 0, _ => none
  | fuel + 1, cs =>
      match skipWs cs with
      | [] => none
      | c :: r =>
          if c = 'n' then
            match r with
            | 'u' :: 'l' :: 'l' :: r2 => some (.jnull, r2)
            | _ => none
          else if c = 't' then
            match r with
            | 'r' :: 'u' :: 'e' :: r2 => some (.jbool true, r2)
            | _ => none
          else if c = 'f' then
            match r with
            | 'a' :: 'l' :: 's' :: 'e' :: r2 => some (.jbool false, r2)
            | _ => none
          else if c = dq then
            (jStrBody r).map fun st => (.jstr ⟨st.1⟩, st.2)
          else if c = '[' then
            match skipWs r with
            | [] => none
            | c2 :: t2 =>
                if c2 = ']' then some (.jarr .nil, t2)
                else (jParseItems fuel (c2 :: t2)).map fun st =>
                  (.jarr st.1, st.2)
          else if c = lb then
            match skipWs r with
            | [] => none
            | c2 :: t2 =>
                if c2 = rb then some (.jobj .nil, t2)
                else (jParseMembers fuel (c2 :: t2)).map fun st =>
                  (.jobj st.1, st.2)
          else if c = Char.ofNat 45 ∨ isDig c then
            (jNum (c :: r)).map fun st => (.jint st.1, st.2)
          else none
/-- Reads the non-empty comma-separated items of an array up to `]`. -/
def jParseItems : Nat → List Char → Option (JList × List Char)
  | 0, _ => none
  | fuel + 1, cs =>
      (jParseVal fuel cs).bind fun st =>
        match skipWs st.2 with
        | [] => none
        | c :: r2 =>
            if c = ',' then
              (jParseItems fuel (skipWs r2)).map fun st2 =>
                (.cons st.1 st2.1, st2.2)
            else if c = ']' then some (.cons st.1 .nil, r2)
            else none
/-- Reads the non-empty comma-separated members of an object up to the
closing brace. -/
def jParseMembers : Nat → List Char → Option (JObj × List Char)
  | 0, _ => none
  | fuel + 1, cs =>
      match skipWs cs with
      | [] => none
      | c :: r =>
          if c = dq then
            (jStrBody r).bind fun kst =>
              match skipWs kst.2 with
              | [] => none
              | c1 :: r2 =>
                  if c1 = ':' then
                    (jParseVal fuel (skipWs r2)).bind fun vst =>
                      match skipWs vst.2 with
                      | [] => none
                      | c3 :: r3 =>
                          if c3 = ',' then
                            (jParseMembers fuel (skipWs r3)).map fun mst =>
                              (.cons ⟨kst.1⟩ vst.1 mst.1, mst.2)
                          else if c3 = rb then
                            some (.cons ⟨kst.1⟩ vst.1 .nil, r3)
                          else none
                  else none
          else none
end

/-- Model of `json.loads` on a whole document: parse one value and require
only whitespace to remain. -/
def jLoads (cs : List Char) : Option JVal :=
  (jParseVal (cs.length + 1) cs).bind fun st =>
    if (skipWs st.2).isEmpty then some st.1 else none

/-! ## Detail and evidence exporters (`write_pair_results`, `write_evidence_top`) -/

/-- Source: `payload = dict(pairs=details)` — the single top-level object
wrapping the detail list. -/
def pairsPayload (details : JList) : JVal :=
  .jobj (.cons "pairs" (.jarr details) .nil)

/-- Source: `write_pair_results`: serialize `payload` with
`ensure_ascii=False, indent=2` and write it at `path` (no parent-directory
creation). -/
def writePairResults (fs : FS) (path : List String) (details : JList) :
    Except String FS :=
  fsWrite fs path (jDumps (pairsPayload details))

/-- A detail record as `write_evidence_top` consumes it: an ordered pair
of identifiers and the hit list (an arbitrary JSON array). -/
structure EvDetail where
  pair : String × String
  hits : JList

/-- The evidence mapping built by the dict comprehension, in insertion
order: key `str(tuple(detail[\"pair\"]))`, value `detail[\"hits\"]`; a
repeated key keeps its first position and takes the later value. -/
def evidenceEntries (details : List EvDetail) : List (String × JVal) :=
  details.foldl (fun m d => assocSet m (pyPairKey d.pair) (.jarr d.hits)) []

/-- An association list as a JSON object. -/
def toJObj : List (String × JVal) → JObj
  | [] => .nil
  | (k, v) :: t => .cons k v (toJObj t)

/-- Source: `write_evidence_top`: serialize the evidence mapping with
`ensure_ascii=False, indent=2` and write it at `path` (no parent-directory
creation). -/
def writeEvidenceTop (fs : FS) (path : List String) (details : List EvDetail) :
    Except String FS :=
  fsWrite fs path (jDumps (.jobj (toJObj (evidenceEntries details))))

/-! ## Narrative report builder (`write_word_report`)

The document is modelled as a list of items mirroring the `doc.add_*`
calls; items carrying computed numbers keep the exact values (their
`.3f` / `.1%` text formatting is abstracted).  Name resolution models the
module globals of `reporting.py`: the body's `datetime.datetime.now()`
looks `datetime` up among the names the module binds, and the lookup
fails because the module never imports `datetime`, raising `NameError`
after the title heading was added and before anything further. -/

/-- One item added to the report document. -/
inductive DocItem where
  | heading (lvl : Nat) (txt : String)
  | para (txt : String)
  | stamp
  | pairsLine (n : Nat)
  | matchesLine (n : Int)
  | avgLine (q : Rat)
  | riskLine (high medium low : Nat)
  | tbl (rows : List ((String × String) × Int × Rat × Rat))
  | pairHead (idx : Nat) (pr : String × String)
  | statLine (count : Int) (mean score : Rat)
  | hitLine (r : RHit)
  | pageBreak
deriving DecidableEq

/-- Result of `write_word_report`: success with the final filesystem and
document, or an unbound-name failure carrying the filesystem effects and
the document items added before the failing line. -/
inductive WordOutcome where
  | ok (fs : FS) (doc : List DocItem)
  | nameErr (missing : String) (fs : FS) (docSoFar : List DocItem)
deriving DecidableEq

/-- The filesystem state an outcome leaves behind. -/
def WordOutcome.fs : WordOutcome → FS
  | .ok fs _ => fs
  | .nameErr _ fs _ => fs

/-- The names module `reporting.py` binds at top level (its imports,
constants and function definitions).  `datetime` is not among them. -/
def moduleNames : List String :=
  ["annotations", "csv", "json", "Path", "Iterable", "List",
   "SUMMARY_HEADER", "PARA_SUMMARY_HEADER", "write_summary_csv",
   "write_paragraph_summary", "write_pair_results", "write_evidence_top",
   "Document", "Pt", "write_word_report"]

/-- The title heading, the one item added before the timestamp line. -/
def reportTitle : DocItem := .heading 1 "Plagiarism Detection Report"

/-- Rows of the compact summary table, one per stats record in input
order: pair (order as given), match count, mean similarity, score. -/
def summaryTblRows (stats : List NStat) :
    List ((String × String) × Int × Rat × Rat) :=
  stats.map (fun it =>
    (it.pair.getD ("", ""), it.count.getD 0, it.mean_sim.getD 0,
     it.score.getD 0))

/-- The overall-summary section: heading, the four computed lines, the
compact table. -/
def summarySection (stats : List NStat) : List DocItem :=
  [.heading 2 "1. Overall Summary", .pairsLine (totalPairs stats),
   .matchesLine (totalMatches stats), .avgLine (avgPairSim stats),
   .riskLine (highRisk stats) (mediumRisk stats) (lowRisk stats),
   .para "", .tbl (summaryTblRows stats), .para ""]

/-- The per-pair narrative for one detail record: heading, stat line, the
sliced hits (or a no-hits line), a blank paragraph and a page break. -/
def pairSection (idx : Nat) (d : NDetail) (topN : Nat) : List DocItem :=
  [.pairHead idx (d.pair.getD ("?", "?")),
   .statLine (d.count.getD 0) (d.mean_sim.getD 0) (d.score.getD 0)]
  ++ (if (hitsShown d topN).isEmpty then [.para "  No sentence-level hits."]
      else (pairHitBlocks d topN).map .hitLine)
  ++ [.para "", .pageBreak]

/-- The sentence-level comparisons section: the details in given order,
numbered from 1. -/
def comparisonsSection (details : List NDetail) (topN : Nat) : List DocItem :=
  .heading 2 "2. Sentence-level Comparisons" ::
  (if details.isEmpty then [.para "No detailed pair results available."]
   else details.enum.flatMap (fun p => pairSection (p.1 + 1) p.2 topN))

/-- Source: `write_word_report(path, stats, details, top_n_per_pair=5)`.
The parent directories are created first; the document gets its title
heading; then the timestamp line evaluates `datetime.datetime.now()`,
whose name lookup consults the module globals. -/
def writeWordReport (fs : FS) (path : List String) (stats : List NStat)
    (details : List NDetail) (topN : Nat) : WordOutcome :=
  let fs2 := mkdirParentsOf fs path
  let doc0 := [reportTitle]
  if moduleNames.contains "datetime" then
    .ok fs2 (doc0 ++ .stamp :: .para "" :: summarySection stats
      ++ comparisonsSection details topN)
  else .nameErr "datetime" fs2 doc0

/-! ## Theorems

Helper lemmas first, then one theorem per specification claim (with its
witness or counterexample where required). -/

/-- Every stats record falls in exactly one risk bucket, so the High and
Medium counts plus the strictly-below-half count exhaust the list. -/
theorem risk_partition (stats : List NStat) :
    highRisk stats + mediumRisk stats
      + stats.countP (fun it => decide (nScore it < (1 : Rat)/2))
      = stats.length := by
  induction stats with
  | nil => rfl
  | cons it t ih =>
      simp only [highRisk, mediumRisk, List.countP_cons, List.length_cons,
                 decide_eq_true_eq] at ih ⊢
      by_cases h1 : (7 : Rat)/10 ≤ nScore it
      · have h2 : ¬((1 : Rat)/2 ≤ nScore it ∧ nScore it < (7 : Rat)/10) := by
          rintro ⟨-, hlt⟩; exact absurd h1 (not_le.mpr hlt)
        have h3 : ¬(nScore it < (1 : Rat)/2) := by
          intro hlt; exact absurd h1 (not_le.mpr (hlt.trans (by norm_num)))
        rw [if_pos h1, if_neg h2, if_neg h3]
        omega
      · by_cases h2 : (1 : Rat)/2 ≤ nScore it
        · have h2' : (1 : Rat)/2 ≤ nScore it ∧ nScore it < (7 : Rat)/10 :=
            ⟨h2, not_le.mp h1⟩
          have h3 : ¬(nScore it < (1 : Rat)/2) := not_lt.mpr h2
          rw [if_neg h1, if_pos h2', if_neg h3]
          omega
        · have h2' : ¬((1 : Rat)/2 ≤ nScore it ∧ nScore it < (7 : Rat)/10) := by
            rintro ⟨hle, -⟩; exact h2 hle
          have h3 : nScore it < (1 : Rat)/2 := not_le.mp h2
          rw [if_neg h1, if_neg h2', if_pos h3]
          omega

/-- C6: in the narrative report's risk classification, a record scoring at
least `0.7` is counted High, one scoring in `[0.5, 0.7)` Medium (e.g.
`0.699999` and `0.5`), one scoring below `0.5` Low (e.g. `0.499999`); the
Low count, computed as `total_pairs - high - medium`, equals the count of
records scoring below `0.5`, and the three buckets always sum to the
number of stats records. -/
theorem claim_C6_risk_buckets :
    (∀ stats : List NStat,
      highRisk stats = stats.countP (fun it => decide ((7 : Rat)/10 ≤ nScore it))
      ∧ mediumRisk stats = stats.countP (fun it =>
          decide ((1 : Rat)/2 ≤ nScore it ∧ nScore it < (7 : Rat)/10))
      ∧ lowRisk stats = stats.length - highRisk stats - mediumRisk stats
      ∧ lowRisk stats = stats.countP (fun it => decide (nScore it < (1 : Rat)/2))
      ∧ highRisk stats + mediumRisk stats + lowRisk stats = stats.length)
    ∧ highRisk [scoreOnly ((7 : Rat)/10)] = 1
    ∧ mediumRisk [scoreOnly ((699999 : Rat)/1000000)] = 1
    ∧ mediumRisk [scoreOnly ((1 : Rat)/2)] = 1
    ∧ lowRisk [scoreOnly ((499999 : Rat)/1000000)] = 1 := by
  refine ⟨fun stats => ⟨rfl, rfl, rfl, ?_, ?_⟩,
    by simp [highRisk, List.countP_cons, scoreOnly, nScore],
    by simp [mediumRisk, List.countP_cons, scoreOnly, nScore]; norm_num,
    by simp [mediumRisk, List.countP_cons, scoreOnly, nScore]; norm_num,
    by simp [lowRisk, totalPairs, highRisk, mediumRisk, List.countP_cons,
             scoreOnly, nScore]; norm_num⟩
  · have h := risk_partition stats
    simp only [lowRisk, totalPairs]
    omega
  · have h := risk_partition stats
    simp only [lowRisk, totalPairs]
    omega

/-- C9: the narrative report's average pair similarity is `0.0` on an
empty stats list, and the mean of the `mean_sim` values otherwise; in the
non-empty case the divisor is the (non-zero) record count. -/
theorem claim_C9_avg_pair_sim :
    avgPairSim [] = 0
    ∧ ∀ stats : List NStat, stats ≠ [] →
        avgPairSim stats
          = (stats.map (fun it => it.mean_sim.getD 0)).sum / (stats.length : Rat)
        ∧ ((stats.length : Rat) ≠ 0) := by
  refine ⟨rfl, fun stats h => ⟨?_, ?_⟩⟩
  · have hlen : totalPairs stats ≠ 0 := by
      simpa [totalPairs, List.length_eq_zero] using h
    unfold avgPairSim
    rw [if_pos hlen]
    rfl
  · exact Nat.cast_ne_zero.mpr (by simpa [List.length_eq_zero] using h)

/-- Witness for C9 at a concrete non-empty input. -/
theorem claim_C9_avg_pair_sim_witness :
    avgPairSim [{ mean_sim := some ((3 : Rat)/4) }] = (3 : Rat)/4 := by
  have h := claim_C9_avg_pair_sim.2 [{ mean_sim := some ((3 : Rat)/4) }]
    (by simp)
  rw [h.1]
  norm_num

/-- C7: the narrative report renders exactly the first
`min topN (number of hits)` hits of a detail record, in original order;
each rendered hit shows `adjusted_sim` when present else `sim`, carries
the possible-citation note exactly when `citation_penalty < 1.0`, and
shows the two excerpts newline-collapsed and trimmed. -/
theorem claim_C7_hit_slice :
    ∀ (d : NDetail) (topN : Nat),
      (pairHitBlocks d topN).length = min topN (d.hits.getD []).length
      ∧ (∀ i : Nat, i < (pairHitBlocks d topN).length →
          (pairHitBlocks d topN)[i]? = ((d.hits.getD [])[i]?).map renderHit)
      ∧ (∀ h : NHit,
          (∀ a, h.adjusted_sim = some a → (renderHit h).simShown = a)
          ∧ (h.adjusted_sim = none → (renderHit h).simShown = h.sim.getD 0)
          ∧ ((renderHit h).citedNote = true ↔ h.citation_penalty.getD 1 < 1)
          ∧ (renderHit h).textI = pyStrip (pyReplaceNl (h.text_i.getD ""))
          ∧ (renderHit h).textJ = pyStrip (pyReplaceNl (h.text_j.getD ""))) := by
  intro d topN
  refine ⟨by simp [pairHitBlocks, hitsShown], fun i hi => ?_, fun h => ?_⟩
  · have hlt : i < topN := by
      simp [pairHitBlocks, hitsShown] at hi
      omega
    simp [pairHitBlocks, hitsShown, List.getElem?_take, hlt]
  · refine ⟨fun a ha => by simp [renderHit, ha], fun ha => by simp [renderHit, ha],
      by simp [renderHit], rfl, rfl⟩

/-- Witness for C7: with `top_n_per_pair = 2` and five hits, exactly the
first two are rendered, the first using `adjusted_sim`, the second
falling back to `sim`. -/
theorem claim_C7_hit_slice_witness :
    (pairHitBlocks
        { hits := some [{ sim := some ((1 : Rat)/2), adjusted_sim := some ((2 : Rat)/5) },
                        { sim := some ((9 : Rat)/10) }, {}, {}, {}] } 2).length = 2
    ∧ (pairHitBlocks
        { hits := some [{ sim := some ((1 : Rat)/2), adjusted_sim := some ((2 : Rat)/5) },
                        { sim := some ((9 : Rat)/10) }, {}, {}, {}] } 2)[0]?
        = some (renderHit { sim := some ((1 : Rat)/2), adjusted_sim := some ((2 : Rat)/5) })
    ∧ (renderHit { sim := some ((1 : Rat)/2), adjusted_sim := some ((2 : Rat)/5) }).simShown = (2 : Rat)/5
    ∧ (renderHit ({ sim := some ((9 : Rat)/10) } : NHit)).simShown = (9 : Rat)/10 := by
  have h := claim_C7_hit_slice
    { hits := some [{ sim := some ((1 : Rat)/2), adjusted_sim := some ((2 : Rat)/5) },
                    { sim := some ((9 : Rat)/10) }, {}, {}, {}] } 2
  refine ⟨by rw [h.1]; rfl, ?_, ?_, ?_⟩
  · rw [h.2.1 0 (by rw [h.1]; decide)]; rfl
  · exact (h.2.2 _).1 _ rfl
  · exact (h.2.2 _).2.1 rfl

/-! ### Lemmas about `exMapM` and the tabular writer -/

/-- When every element maps successfully along `u` then `f`, the fallible
map succeeds with the composed images. -/
theorem exMapM_map_comp {α β γ : Type} (f : β → Except String α) (u : γ → β)
    (g : γ → α) (l : List γ) (h : ∀ x ∈ l, f (u x) = .ok (g x)) :
    exMapM f (l.map u) = .ok (l.map g) := by
  induction l with
  | nil => rfl
  | cons a t ih =>
      simp only [List.map_cons, exMapM, h a (by simp),
        ih (fun x hx => h x (by simp [hx]))]
      rfl

/-- When every element maps successfully, the fallible map succeeds, with
one image per element. -/
theorem exMapM_ok_parts {α γ : Type} (f : γ → Except String α) (l : List γ)
    (h : ∀ x ∈ l, ∃ y, f x = .ok y) :
    ∃ ys : List α, exMapM f l = .ok ys ∧ ys.length = l.length
      ∧ ∀ x ∈ l, ∃ y ∈ ys, f x = .ok y := by
  induction l with
  | nil => exact ⟨[], rfl, rfl, by simp⟩
  | cons a t ih =>
      obtain ⟨y, hy⟩ := h a (by simp)
      obtain ⟨ys, hys, hlen, hmem⟩ := ih (fun x hx => h x (by simp [hx]))
      refine ⟨y :: ys, ?_, by simp [hlen], ?_⟩
      · simp only [exMapM, hy, hys]
        rfl
      · intro x hx
        rcases List.mem_cons.mp hx with rfl | hx
        · exact ⟨y, by simp, hy⟩
        · obtain ⟨z, hz, hfz⟩ := hmem x hx
          exact ⟨z, by simp [hz], hfz⟩

/-- A failing element makes the whole fallible map fail. -/
theorem exMapM_error_of_mem {α γ : Type} (f : γ → Except String α)
    (l : List γ) (x : γ) (hx : x ∈ l) (e : String) (he : f x = .error e) :
    ∃ e2, exMapM f l = .error e2 := by
  induction l with
  | nil => cases hx
  | cons a t ih =>
      rcases List.mem_cons.mp hx with rfl | hx2
      · exact ⟨e, by simp only [exMapM, he]; rfl⟩
      · cases hfa : f a with
        | error e3 => exact ⟨e3, by simp only [exMapM, hfa]; rfl⟩
        | ok y =>
            obtain ⟨e2, he2⟩ := ih hx2
            exact ⟨e2, by simp only [exMapM, hfa, he2]; rfl⟩

/-- A dict-style update at a different key preserves an entry. -/
theorem assocSet_mem_of_ne {κ α : Type} [DecidableEq κ]
    (m : List (κ × α)) (k : κ) (v : α) (kv : κ × α)
    (hkv : kv ∈ m) (hne : kv.1 ≠ k) : kv ∈ assocSet m k v := by
  obtain ⟨k1, v1⟩ := kv
  induction m with
  | nil => cases hkv
  | cons a t ih =>
      obtain ⟨k0, v0⟩ := a
      rcases List.mem_cons.mp hkv with heq | h2
      · obtain ⟨rfl, rfl⟩ := Prod.mk.injEq .. ▸ heq
        simp only [assocSet]
        rw [if_neg (by simpa using hne)]
        exact List.mem_cons_self ..
      · simp only [assocSet]
        by_cases h : k0 = k
        · rw [if_pos h]
          exact List.mem_cons_of_mem _ h2
        · rw [if_neg h]
          exact List.mem_cons_of_mem _ (ih h2)

/-- A row carrying a field outside the header makes `DictWriter` raise. -/
theorem dictWriterRow_error (header : List String) (row : CRec)
    (kv : String × CVal) (hkv : kv ∈ row)
    (hbad : header.contains kv.1 = false) :
    dictWriterRow header row
      = .error "ValueError: dict contains fields not in fieldnames" := by
  have hall : row.all (fun x => header.contains x.1) = false := by
    rw [List.all_eq_false]
    refine ⟨kv, hkv, ?_⟩
    simp only [Bool.not_eq_true]
    exact hbad
  unfold dictWriterRow
  rw [hall]
  simp

/-- A record whose keys all lie in the header and whose `pair` unpacks
passes phase one; with an extra key the written row raises instead.  This
is the shared engine behind the extra-key failure of both tabular
exports. -/
theorem writeTableRows_extra_key (header : List String) (stats : List CRec)
    (hprep : ∀ r ∈ stats, ∃ p, List.lookup "pair" r = some (CVal.pr p))
    (hpair : header.contains "pair" = true)
    (r : CRec) (hr : r ∈ stats) (kv : String × CVal) (hkv : kv ∈ r)
    (hbad : header.contains kv.1 = false) :
    ∃ e, writeTableRows header stats = .error e := by
  have hne : kv.1 ≠ "pair" := by
    intro h
    rw [h, hpair] at hbad
    cases hbad
  have hok : ∀ x ∈ stats, ∃ y, prepRow x = .ok y := by
    intro x hx
    obtain ⟨p, hp⟩ := hprep x hx
    exact ⟨assocSet x "pair" (.str ("(" ++ p.1 ++ ", " ++ p.2 ++ ")")),
      by obtain ⟨a, b⟩ := p; simp [prepRow, hp]⟩
  obtain ⟨ys, hys, hlen, hmem⟩ := exMapM_ok_parts _ _ hok
  obtain ⟨y, hy, hfy⟩ := hmem r hr
  obtain ⟨p, hp⟩ := hprep r hr
  have hyeq : y = assocSet r "pair" (.str ("(" ++ p.1 ++ ", " ++ p.2 ++ ")")) := by
    obtain ⟨a, b⟩ := p
    rw [prepRow, hp] at hfy
    exact (Except.ok.injEq .. ▸ hfy).symm
  have hkv2 : kv ∈ y := hyeq ▸ assocSet_mem_of_ne r _ _ kv hkv hne
  have herr := dictWriterRow_error header y kv hkv2 hbad
  obtain ⟨e2, he2⟩ := exMapM_error_of_mem (dictWriterRow header) ys y hy _ herr
  exact ⟨e2, by simp only [writeTableRows, hys, he2]⟩

/-- The exact table written for fully-populated records. -/
theorem writeSummaryCsv_exact (stats : List SRec) :
    writeSummaryCsv (stats.map SRec.toRec)
      = .ok ((SUMMARY_HEADER.map CVal.str) :: stats.map SRec.row) := by
  have h1 : exMapM prepRow (stats.map SRec.toRec)
      = .ok (stats.map SRec.prepped) :=
    exMapM_map_comp _ _ _ _ (fun r _ => rfl)
  have h2 : exMapM (dictWriterRow SUMMARY_HEADER) (stats.map SRec.prepped)
      = .ok (stats.map SRec.row) :=
    exMapM_map_comp _ _ _ _ (fun r _ => rfl)
  simp only [writeSummaryCsv, writeTableRows, h1, h2]

/-! ### Claims C1, C8, C10 (tabular exports) -/

/-- C1 counterexample: a record whose fields are a strict superset of the
header columns (an extra `note` key) makes both tabular exports fail with
the `DictWriter` `ValueError` instead of succeeding with the projected
output. -/
theorem claim_C1_counterexample :
    writeSummaryCsv [[("pair", CVal.pr ("alice", "bob")), ("note", CVal.str "x")]]
      = .error "ValueError: dict contains fields not in fieldnames"
    ∧ writeParagraphSummary [[("pair", CVal.pr ("alice", "bob")), ("note", CVal.str "x")]]
      = .error "ValueError: dict contains fields not in fieldnames"
    ∧ writeSummaryCsv [[("pair", CVal.pr ("alice", "bob"))]]
      = .ok [SUMMARY_HEADER.map CVal.str,
             [CVal.str "(alice, bob)", CVal.str "", CVal.str "", CVal.str "",
              CVal.str "", CVal.str "", CVal.str "", CVal.str "", CVal.str "",
              CVal.str ""]] :=
  ⟨rfl, rfl, rfl⟩

/-- C1 (amended): the tabular exports do not project records onto the
fixed column set — whenever some record carries a key outside the header
columns, `write_summary_csv` (resp. `write_paragraph_summary`) fails with
a schema error rather than writing the projected rows. -/
theorem claim_C1_extra_keys_fail :
    ∀ stats : List CRec,
      (∀ r ∈ stats, ∃ p, List.lookup "pair" r = some (CVal.pr p)) →
      ((∃ r ∈ stats, ∃ kv ∈ r, SUMMARY_HEADER.contains kv.1 = false) →
        ∃ e, writeSummaryCsv stats = .error e)
      ∧ ((∃ r ∈ stats, ∃ kv ∈ r, PARA_SUMMARY_HEADER.contains kv.1 = false) →
        ∃ e, writeParagraphSummary stats = .error e) := by
  intro stats hprep
  constructor
  · rintro ⟨r, hr, kv, hkv, hbad⟩
    exact writeTableRows_extra_key SUMMARY_HEADER stats hprep (by decide)
      r hr kv hkv hbad
  · rintro ⟨r, hr, kv, hkv, hbad⟩
    exact writeTableRows_extra_key PARA_SUMMARY_HEADER stats hprep (by decide)
      r hr kv hkv hbad

/-- Witness for the amended C1 at a concrete record with an extra key. -/
theorem claim_C1_extra_keys_fail_witness :
    (∃ e, writeSummaryCsv [[("pair", CVal.pr ("alice", "bob")), ("note", CVal.str "x")]]
      = .error e)
    ∧ (∃ e, writeParagraphSummary [[("pair", CVal.pr ("alice", "bob")), ("note", CVal.str "x")]]
      = .error e) := by
  have h := claim_C1_extra_keys_fail
    [[("pair", CVal.pr ("alice", "bob")), ("note", CVal.str "x")]]
    (by intro r hr
        rw [List.mem_singleton] at hr
        subst hr
        exact ⟨("alice", "bob"), rfl⟩)
  refine ⟨h.1 ?_, h.2 ?_⟩
  · exact ⟨_, List.mem_singleton.mpr rfl, ("note", CVal.str "x"), by simp, by decide⟩
  · exact ⟨_, List.mem_singleton.mpr rfl, ("note", CVal.str "x"), by simp, by decide⟩

/-- C8: for every non-empty list of fully-populated stats records, the
sentence-level table is the fixed header row followed by one data row per
record in input order, `len(stats) + 1` rows in all, each data row
starting with the pair rendered `(A, B)` in the given order. -/
theorem claim_C8_table_shape :
    ∀ stats : List SRec, stats ≠ [] →
      writeSummaryCsv (stats.map SRec.toRec)
        = .ok ((SUMMARY_HEADER.map CVal.str) :: stats.map SRec.row)
      ∧ ((SUMMARY_HEADER.map CVal.str) :: stats.map SRec.row).length
          = stats.length + 1
      ∧ ∀ r : SRec, (SRec.row r).head?
          = some (.str ("(" ++ r.pair.1 ++ ", " ++ r.pair.2 ++ ")")) := by
  intro stats _
  exact ⟨writeSummaryCsv_exact stats, by simp, fun r => rfl⟩

/-- Witness for C8 at the spec's concrete scenario record. -/
theorem claim_C8_table_shape_witness :
    writeSummaryCsv [SRec.toRec
      ⟨("alice", "bob"), 3, (62 : Rat)/100, (9 : Rat)/10, (1 : Rat)/10,
       (2 : Rat)/10, (3 : Rat)/10, 10, 12, (55 : Rat)/100⟩]
      = .ok [SUMMARY_HEADER.map CVal.str,
             SRec.row ⟨("alice", "bob"), 3, (62 : Rat)/100, (9 : Rat)/10,
               (1 : Rat)/10, (2 : Rat)/10, (3 : Rat)/10, 10, 12,
               (55 : Rat)/100⟩] := by
  have h := claim_C8_table_shape
    [⟨("alice", "bob"), 3, (62 : Rat)/100, (9 : Rat)/10, (1 : Rat)/10,
      (2 : Rat)/10, (3 : Rat)/10, 10, 12, (55 : Rat)/100⟩]
    (by simp)
  simpa using h.1

/-- C10 counterexample: a record missing required columns (all but `pair`
and `count`) does not make the export fail — the row is written with the
missing cells silently filled with the empty string. -/
theorem claim_C10_counterexample :
    writeSummaryCsv [[("pair", CVal.pr ("stu1", "stu2")), ("count", CVal.int 2)]]
      = .ok [SUMMARY_HEADER.map CVal.str,
             [CVal.str "(stu1, stu2)", CVal.int 2, CVal.str "", CVal.str "",
              CVal.str "", CVal.str "", CVal.str "", CVal.str "", CVal.str "",
              CVal.str ""]] := rfl

/-- C10 (amended): only a missing `pair` column makes the tabular export
fail (the unpacking raises `KeyError` before anything is written); a
record missing any other required column is written silently, the missing
cells filled with the empty string by the writer's default `restval`. -/
theorem claim_C10_missing_column :
    (∀ (stats : List CRec) (r : CRec), r ∈ stats →
        List.lookup "pair" r = none → ∃ e, writeSummaryCsv stats = .error e)
    ∧ writeSummaryCsv [[("pair", CVal.pr ("alice", "bob")), ("count", CVal.int 3)]]
        = .ok [SUMMARY_HEADER.map CVal.str,
               [CVal.str "(alice, bob)", CVal.int 3, CVal.str "", CVal.str "",
                CVal.str "", CVal.str "", CVal.str "", CVal.str "",
                CVal.str "", CVal.str ""]] := by
  constructor
  · intro stats r hr hno
    have herr : prepRow r = .error "KeyError: pair" := by
      simp [prepRow, hno]
    obtain ⟨e2, he2⟩ := exMapM_error_of_mem prepRow stats r hr _ herr
    exact ⟨e2, by simp only [writeSummaryCsv, writeTableRows, he2]⟩
  · rfl

/-- Witness for the amended C10: a record with no `pair` key at all makes
the export fail. -/
theorem claim_C10_missing_column_witness :
    ∃ e, writeSummaryCsv [[("count", CVal.int 1)]] = .error e :=
  claim_C10_missing_column.1 [[("count", CVal.int 1)]] [("count", CVal.int 1)]
    (List.mem_singleton.mpr rfl) rfl

/-! ### Claims C2, C3 (missing import; parent directories) -/

/-- C2 counterexample: at a concrete invocation the report builder stops
with the unbound-name failure only after the title heading has been added
to the document, so content is added before the failure (the claim's
"before adding any report content" does not hold of the heading). -/
theorem claim_C2_counterexample :
    writeWordReport emptyFS ["report.docx"] [] [] 5
      = .nameErr "datetime" (mkdirParentsOf emptyFS ["report.docx"]) [reportTitle]
    ∧ [reportTitle] ≠ ([] : List DocItem) :=
  ⟨rfl, by simp⟩

/-- C2 (amended): `datetime` is not among the module's bound names, so
every invocation of `write_word_report` fails with the unbound-name error
at the timestamp line — after the title heading and before any further
content — and no invocation completes successfully. -/
theorem claim_C2_datetime_unbound :
    moduleNames.contains "datetime" = false
    ∧ ∀ (fs : FS) (path : List String) (stats : List NStat)
        (details : List NDetail) (topN : Nat),
        writeWordReport fs path stats details topN
          = .nameErr "datetime" (mkdirParentsOf fs path) [reportTitle] := by
  refine ⟨by decide, fun fs path stats details topN => ?_⟩
  unfold writeWordReport
  rw [if_neg (by decide)]

/-- Creating the parent chain makes the parent directory exist. -/
theorem parentOk_mkdirParentsOf (fs : FS) (p : List String) :
    parentOk (mkdirParentsOf fs p) p = true := by
  by_cases h : p.dropLast.isEmpty
  · simp [parentOk, h]
  · have hne : p.dropLast ≠ [] := by simpa [List.isEmpty_iff] using h
    have hlen : 0 < p.dropLast.length := List.length_pos.mpr hne
    have hmem : p.dropLast ∈ (mkdirParentsOf fs p).dirs := by
      simp only [mkdirParentsOf, ancestors, List.mem_append, List.mem_map]
      right
      refine ⟨p.dropLast.length - 1, ?_, ?_⟩
      · rw [List.mem_range]
        omega
      · rw [Nat.sub_add_cancel hlen, List.take_length]
    simp [parentOk, hmem]

/-- C3 counterexample: with no parent directory present, the two detail
exporters fail with `FileNotFoundError` — they create no parent
directories. -/
theorem claim_C3_counterexample :
    writePairResults emptyFS ["out", "pair_results.json"] JList.nil
      = .error "FileNotFoundError"
    ∧ writeEvidenceTop emptyFS ["out", "evidence_top.json"] []
      = .error "FileNotFoundError" :=
  ⟨rfl, rfl⟩

/-- C3 (amended): of the three exporters the claim names, only
`write_word_report` creates missing parent directories before writing;
`write_pair_results` and `write_evidence_top` do not, and fail with the
filesystem error whenever the destination's parent directory is absent. -/
theorem claim_C3_parent_dirs :
    ∀ (fs : FS) (path : List String),
      parentOk fs path = false →
      (∀ details : JList,
        writePairResults fs path details = .error "FileNotFoundError")
      ∧ (∀ details : List EvDetail,
        writeEvidenceTop fs path details = .error "FileNotFoundError")
      ∧ (∀ (stats : List NStat) (details : List NDetail) (topN : Nat),
        parentOk (writeWordReport fs path stats details topN).fs path = true) := by
  intro fs path hmiss
  refine ⟨fun details => ?_, fun details => ?_, fun stats details topN => ?_⟩
  · unfold writePairResults fsWrite
    rw [hmiss]
    rfl
  · unfold writeEvidenceTop fsWrite
    rw [hmiss]
    rfl
  · unfold writeWordReport
    rw [if_neg (by decide)]
    exact parentOk_mkdirParentsOf fs path

/-- Witness for the amended C3 at a concrete missing parent. -/
theorem claim_C3_parent_dirs_witness :
    writePairResults emptyFS ["out", "x.json"] JList.nil
      = .error "FileNotFoundError"
    ∧ writeEvidenceTop emptyFS ["out", "x.json"] []
      = .error "FileNotFoundError"
    ∧ parentOk (writeWordReport emptyFS ["out", "x.json"] [] [] 5).fs
        ["out", "x.json"] = true := by
  have h := claim_C3_parent_dirs emptyFS ["out", "x.json"] rfl
  exact ⟨h.1 JList.nil, h.2.1 [], h.2.2 [] [] 5⟩

/-! ### Claim C4 (evidence-index keys: CPython `repr` round-trip) -/

/-- Hexadecimal digit characters decode back to their value. -/
theorem hexCharVal_hexChar : ∀ d : Nat, d < 16 → hexCharVal (hexChar d) = some d := by
  decide

/-- Reading one escaped character undoes `reprEscChar`. -/
theorem reprBody_escChar (q : Char) (hq : q = sq ∨ q = dq) (c : Char)
    (l : List Char) :
    reprBody q (reprEscChar q c ++ l)
      = (reprBody q l).map (fun st => (c :: st.1, st.2)) := by
  by_cases h1 : c = '\\'
  · subst h1
    rcases hq with rfl | rfl <;>
      · (simp [reprEscChar, reprBody, reprUnescChar, Option.bind]; try rfl)
  · by_cases h2 : c = q
    · subst h2
      rcases hq with rfl | rfl <;>
        · (simp [reprEscChar, reprBody, reprUnescChar, Option.bind]; try rfl)
    · by_cases h3 : c = '\t'
      · subst h3
        rcases hq with rfl | rfl <;>
          · (simp [reprEscChar, reprBody, reprUnescChar, Option.bind]; try rfl)
      · by_cases h4 : c = '\n'
        · subst h4
          rcases hq with rfl | rfl <;>
            · (simp [reprEscChar, reprBody, reprUnescChar, Option.bind]; try rfl)
        · by_cases h5 : c = '\r'
          · subst h5
            rcases hq with rfl | rfl <;>
              · (simp [reprEscChar, reprBody, reprUnescChar, Option.bind]; try rfl)
          · by_cases h6 : c.toNat < 32 ∨ c.toNat = 127
            · have hesc : reprEscChar q c
                  = ['\\', 'x', hexChar (c.toNat / 16), hexChar (c.toNat % 16)] := by
                simp [reprEscChar, h1, h2, h3, h4, h5, h6]
              have hlt : c.toNat < 256 := by omega
              rw [hesc]
              simp only [List.cons_append, List.nil_append, reprBody,
                hexCharVal_hexChar _ (by omega : c.toNat / 16 < 16),
                hexCharVal_hexChar _ (by omega : c.toNat % 16 < 16),
                Option.bind]
              rw [show 16 * (c.toNat / 16) + c.toNat % 16 = c.toNat by omega,
                Char.ofNat_toNat]
              simp
            · have hesc : reprEscChar q c = [c] := by
                simp [reprEscChar, h1, h2, h3, h4, h5, h6]
              rw [hesc, List.cons_append, List.nil_append, reprBody.eq_def]
              split
              · rename_i heq
                cases heq
              · rename_i h1' h2' h3' h4' heq
                rw [List.cons.injEq] at heq
                exact absurd heq.1 h1
              · rename_i h1' h2' heq
                rw [List.cons.injEq] at heq
                exact absurd heq.1 h1
              · rename_i h1' h2' h3' heq
                rw [List.cons.injEq] at heq
                obtain ⟨rfl, rfl⟩ := heq
                rw [if_neg h2]



/-- Reading an escaped body stops exactly at the closing quote. -/
theorem reprBody_escape (q : Char) (hq : q = sq ∨ q = dq) (s : List Char)
    (rest : List Char) :
    reprBody q (s.flatMap (reprEscChar q) ++ q :: rest) = some (s, rest) := by
  induction s with
  | nil =>
      have hqb : q ≠ '\\' := by rcases hq with rfl | rfl <;> decide
      rw [List.flatMap_nil, List.nil_append, reprBody.eq_def]
      split
      · rename_i heq
        cases heq
      · rename_i h1' h2' h3' h4' heq
        rw [List.cons.injEq] at heq
        exact absurd heq.1 hqb
      · rename_i h1' h2' heq
        rw [List.cons.injEq] at heq
        exact absurd heq.1 hqb
      · rename_i h1' h2' h3' heq
        rw [List.cons.injEq] at heq
        obtain ⟨rfl, rfl⟩ := heq
        rw [if_pos rfl]
  | cons c t ih =>
      rw [List.flatMap_cons, List.append_assoc, reprBody_escChar q hq, ih]
      rfl

/-- The `repr` codec round-trip: parsing a rendered string recovers it. -/
theorem reprParse_repr (s rest : List Char) :
    reprParse (pyReprL s ++ rest) = some (s, rest) := by
  have hq : reprQuote s = sq ∨ reprQuote s = dq := by
    unfold reprQuote
    split
    · exact Or.inr rfl
    · exact Or.inl rfl
  rw [pyReprL]
  rw [List.cons_append, reprParse, if_pos hq, List.append_assoc]
  exact reprBody_escape _ hq s rest

/-- A rendered `repr` is self-delimiting: it can be cancelled on the left. -/
theorem pyReprL_cancel (s t rest rest2 : List Char)
    (h : pyReprL s ++ rest = pyReprL t ++ rest2) : s = t ∧ rest = rest2 := by
  have h2 := congrArg reprParse h
  rw [reprParse_repr, reprParse_repr] at h2
  have h3 := Option.some.inj h2
  exact ⟨congrArg Prod.fst h3, congrArg Prod.snd h3⟩



/-- Distinct identifier order gives distinct ordered-pair keys. -/
theorem pyPairKey_order_distinct (A B : String) (h : A ≠ B) :
    pyPairKey (A, B) ≠ pyPairKey (B, A) := by
  intro heq
  apply h
  have hdata : pyPairKeyL A.data B.data = pyPairKeyL B.data A.data :=
    congrArg String.data heq
  unfold pyPairKeyL at hdata
  rw [List.cons.injEq] at hdata
  obtain ⟨hA, -⟩ := pyReprL_cancel _ _ _ _ hdata.2
  exact String.ext hA

/-- Updating at a fresh key appends the entry (dict insertion order). -/
theorem assocSet_append_fresh {κ α : Type} [DecidableEq κ]
    (m : List (κ × α)) (k : κ) (v : α) (h : ∀ kv ∈ m, kv.1 ≠ k) :
    assocSet m k v = m ++ [(k, v)] := by
  induction m with
  | nil => rfl
  | cons a t ih =>
      obtain ⟨k0, v0⟩ := a
      rw [assocSet, if_neg (h (k0, v0) (by simp))]
      rw [ih (fun kv hkv => h kv (by simp [hkv]))]
      rfl

/-- With pairwise-distinct keys the evidence mapping lists one entry per
record in input order. -/
theorem evidenceEntries_eq_map (details : List EvDetail)
    (hnd : (details.map (fun d => pyPairKey d.pair)).Nodup) :
    evidenceEntries details
      = details.map (fun d => (pyPairKey d.pair, JVal.jarr d.hits)) := by
  suffices hgen : ∀ (l : List EvDetail) (acc : List (String × JVal)),
      (l.map (fun d => pyPairKey d.pair)).Nodup →
      (∀ d ∈ l, ∀ kv ∈ acc, kv.1 ≠ pyPairKey d.pair) →
      l.foldl (fun m d => assocSet m (pyPairKey d.pair) (.jarr d.hits)) acc
        = acc ++ l.map (fun d => (pyPairKey d.pair, JVal.jarr d.hits)) by
    simpa [evidenceEntries] using hgen details [] hnd (by simp)
  intro l
  induction l with
  | nil =>
      intro acc _ _
      simp
  | cons d t ih =>
      intro acc hnd2 hfresh
      rw [List.map_cons, List.nodup_cons] at hnd2
      have hfresh2 : ∀ d2 ∈ t,
          ∀ kv ∈ acc ++ [(pyPairKey d.pair, JVal.jarr d.hits)],
            kv.1 ≠ pyPairKey d2.pair := by
        intro d2 hd2 kv hkv
        rcases List.mem_append.mp hkv with hin | hin
        · exact hfresh d2 (by simp [hd2]) kv hin
        · rw [List.mem_singleton] at hin
          subst hin
          intro hk
          apply hnd2.1
          have : pyPairKey d.pair = pyPairKey d2.pair := hk
          rw [this]
          exact List.mem_map.mpr ⟨d2, hd2, rfl⟩
      rw [List.foldl_cons,
        assocSet_append_fresh _ _ _ (fun kv hkv => hfresh d (by simp) kv hkv),
        ih _ hnd2.2 hfresh2]
      simp

/-- Looking a record's key up in the entry list finds its hits. -/
theorem lookup_pairKey_map (details : List EvDetail)
    (hnd : (details.map (fun d => pyPairKey d.pair)).Nodup)
    (d : EvDetail) (hd : d ∈ details) :
    List.lookup (pyPairKey d.pair)
        (details.map (fun d => (pyPairKey d.pair, JVal.jarr d.hits)))
      = some (.jarr d.hits) := by
  induction details with
  | nil => cases hd
  | cons d0 t ih =>
      rw [List.map_cons, List.nodup_cons] at hnd
      rw [List.map_cons]
      rcases List.mem_cons.mp hd with rfl | hd2
      · simp [List.lookup]
      · have hne : (pyPairKey d.pair == pyPairKey d0.pair) = false := by
          rw [beq_eq_false_iff_ne]
          intro hk
          exact hnd.1 (hk ▸ List.mem_map.mpr ⟨d, hd2, rfl⟩)
        rw [List.lookup, hne]
        exact ih hnd.2 hd2



/-- C4: the evidence index maps, for each detail record, exactly the
ordered-pair display string of the record's pair — for `("stu1","stu2")`
literally `('stu1', 'stu2')` — to that record's hits list only, and
because pair order is preserved, the keys of `(A,B)` and `(B,A)` differ
whenever `A ≠ B` (via injectivity of the CPython `repr` rendering). -/
theorem claim_C4_evidence_index :
    pyPairKey ("stu1", "stu2") = "(\x27stu1\x27, \x27stu2\x27)"
    ∧ (∀ details : List EvDetail,
        (details.map (fun d => pyPairKey d.pair)).Nodup →
        (evidenceEntries details).map Prod.fst
            = details.map (fun d => pyPairKey d.pair)
        ∧ ∀ d ∈ details,
            List.lookup (pyPairKey d.pair) (evidenceEntries details)
              = some (JVal.jarr d.hits))
    ∧ (∀ A B : String, A ≠ B → pyPairKey (A, B) ≠ pyPairKey (B, A)) := by
  refine ⟨rfl, fun details hnd => ⟨?_, ?_⟩, pyPairKey_order_distinct⟩
  · rw [evidenceEntries_eq_map details hnd, List.map_map]
    rfl
  · intro d hd
    rw [evidenceEntries_eq_map details hnd]
    exact lookup_pairKey_map details hnd d hd

/-- Witness for C4 at two concrete records with mirrored pairs. -/
theorem claim_C4_evidence_index_witness :
    (evidenceEntries [⟨("stu1", "stu2"), JList.nil⟩, ⟨("stu2", "stu1"), JList.nil⟩]).map Prod.fst
      = ["(\x27stu1\x27, \x27stu2\x27)", "(\x27stu2\x27, \x27stu1\x27)"]
    ∧ List.lookup (pyPairKey ("stu1", "stu2"))
        (evidenceEntries [⟨("stu1", "stu2"), JList.nil⟩, ⟨("stu2", "stu1"), JList.nil⟩])
      = some (JVal.jarr JList.nil)
    ∧ pyPairKey ("stu1", "stu2") ≠ pyPairKey ("stu2", "stu1") := by
  have h := claim_C4_evidence_index
  have h2 := h.2.1 [⟨("stu1", "stu2"), JList.nil⟩, ⟨("stu2", "stu1"), JList.nil⟩]
    (by decide)
  refine ⟨by rw [h2.1]; rfl, ?_, h.2.2 "stu1" "stu2" (by decide)⟩
  exact h2.2 ⟨("stu1", "stu2"), JList.nil⟩ (by simp)

/-! ### Claim C5 (detail export JSON round-trip) -/

/-- Decimal digit characters carry their value. -/
theorem digitChar_toNat : ∀ d : Nat, d < 10 → (Char.ofNat (48 + d)).toNat = 48 + d := by
  decide

/-- Decimal digit characters pass the digit test. -/
theorem digitChar_isDig : ∀ d : Nat, d < 10 → isDig (Char.ofNat (48 + d)) = true := by
  decide

/-- A printed natural number is never empty. -/
theorem natDecL_ne_nil (n : Nat) : natDecL n ≠ [] := by
  unfold natDecL
  split
  · simp
  · rename_i h
    have hd : Nat.digits 10 n ≠ [] := Nat.digits_ne_nil_iff_ne_zero.mpr h
    simp [hd]

/-- A printed natural number consists of digit characters. -/
theorem natDecL_digits (n : Nat) : ∀ c ∈ natDecL n, isDig c = true := by
  unfold natDecL
  split
  · intro c hc
    rw [List.mem_singleton] at hc
    subst hc
    decide
  · intro c hc
    rw [List.mem_map] at hc
    obtain ⟨d, hd, rfl⟩ := hc
    rw [List.mem_reverse] at hd
    exact digitChar_isDig d (Nat.digits_lt_base (by norm_num) hd)

/-- A printed natural number starts with a digit. -/
theorem natDecL_head (n : Nat) :
    ∃ c t, natDecL n = c :: t ∧ isDig c = true := by
  cases h : natDecL n with
  | nil => exact absurd h (natDecL_ne_nil n)
  | cons c t =>
      exact ⟨c, t, rfl, natDecL_digits n c (h ▸ List.mem_cons_self ..)⟩

/-- Folding base-10 accumulation over a little-endian digit list. -/
theorem foldr_base10 (L : List Nat) :
    L.foldr (fun d a => a * 10 + d) 0 = Nat.ofDigits 10 L := by
  induction L with
  | nil => rfl
  | cons d L ih =>
      rw [List.foldr_cons, ih, Nat.ofDigits_cons]
      omega

/-- Digit accumulation commutes with rendering digits as characters. -/
theorem foldl_digit_chars (L : List Nat) (hL : ∀ d ∈ L, d < 10) :
    ∀ acc : Nat,
      (L.map (fun d => Char.ofNat (48 + d))).foldl
          (fun a c => a * 10 + (c.toNat - 48)) acc
        = L.foldl (fun a d => a * 10 + d) acc := by
  induction L with
  | nil => intro acc; rfl
  | cons d t ih =>
      intro acc
      rw [List.map_cons, List.foldl_cons, List.foldl_cons,
        digitChar_toNat d (hL d (by simp)), Nat.add_sub_cancel_left]
      exact ih (fun x hx => hL x (by simp [hx])) _

/-- The decimal print/parse round-trip on natural numbers. -/
theorem digitsVal_natDecL (n : Nat) : digitsVal (natDecL n) = n := by
  unfold natDecL
  split
  · rename_i h
    subst h
    decide
  · unfold digitsVal
    rw [foldl_digit_chars _ (fun d hd =>
        Nat.digits_lt_base (by norm_num) (List.mem_reverse.mp hd)),
      List.foldl_reverse, foldr_base10, Nat.ofDigits_digits]

/-- `takeWhile`/`dropWhile` split a digit run followed by a non-digit. -/
theorem span_digits (ds rest : List Char) (hds : ∀ c ∈ ds, isDig c = true)
    (hrest : ∀ c, rest.head? = some c → isDig c = false) :
    (ds ++ rest).takeWhile isDig = ds
      ∧ (ds ++ rest).dropWhile isDig = rest := by
  induction ds with
  | nil =>
      cases rest with
      | nil => exact ⟨rfl, rfl⟩
      | cons c t =>
          have hc := hrest c rfl
          simp [List.takeWhile_cons, List.dropWhile_cons, hc]
  | cons c t ih =>
      have hc := hds c (by simp)
      obtain ⟨h1, h2⟩ := ih (fun x hx => hds x (by simp [hx]))
      simp [List.takeWhile_cons, List.dropWhile_cons, hc, h1, h2]

/-- A digit character is none of the parser's structural characters. -/
theorem isDig_char_facts (c : Char) (h : isDig c = true) :
    jIsWs c = false ∧ c ≠ ']' ∧ c ≠ rb ∧ c ≠ Char.ofNat 45 ∧ c ≠ 'n'
      ∧ c ≠ 't' ∧ c ≠ 'f' ∧ c ≠ dq ∧ c ≠ '[' ∧ c ≠ lb ∧ c ≠ ','
      ∧ c ≠ ':' := by
  simp only [isDig, Bool.and_eq_true, decide_eq_true_eq] at h
  refine ⟨?_, ?_, ?_, ?_, ?_, ?_, ?_, ?_, ?_, ?_, ?_, ?_⟩
  · simp only [jIsWs, Bool.or_eq_false_iff, beq_eq_false_iff_ne]
    refine ⟨⟨⟨?_, ?_⟩, ?_⟩, ?_⟩ <;>
      · intro heq
        rw [heq] at h
        revert h
        decide
  all_goals
    intro heq
    rw [heq] at h
    revert h
    decide

/-- Whitespace is not a digit. -/
theorem ws_not_dig (c : Char) (h : jIsWs c = true) : isDig c = false := by
  simp only [jIsWs, Bool.or_eq_true, beq_iff_eq] at h
  rcases h with ((rfl | rfl) | rfl) | rfl <;> decide

/-- The integer print/parse round-trip, given the remainder cannot extend
the digit run. -/
theorem jNum_intDec (i : Int) (rest : List Char)
    (hrest : ∀ c, rest.head? = some c → isDig c = false) :
    jNum (intDecL i ++ rest) = some (i, rest) := by
  obtain ⟨sp1, sp2⟩ := span_digits (natDecL i.natAbs) rest
    (natDecL_digits _) hrest
  by_cases hneg : i < 0
  · have harg : intDecL i ++ rest
        = Char.ofNat 45 :: (natDecL i.natAbs ++ rest) := by
      simp [intDecL, hneg]
    rw [harg, jNum, if_pos rfl, sp1, sp2,
      if_neg (by simp [List.isEmpty_iff, natDecL_ne_nil])]
    rw [digitsVal_natDecL]
    congr 1
    rw [Prod.mk.injEq]
    exact ⟨by omega, rfl⟩
  · obtain ⟨c0, t0, h0, hd0⟩ := natDecL_head i.natAbs
    have harg : intDecL i ++ rest = c0 :: (t0 ++ rest) := by
      simp [intDecL, hneg, h0]
    rw [harg, jNum, if_neg (isDig_char_facts c0 hd0).2.2.2.1, if_pos hd0]
    rw [show c0 :: (t0 ++ rest) = natDecL i.natAbs ++ rest by rw [h0]; rfl]
    rw [sp1, sp2, digitsVal_natDecL]
    congr 1
    rw [Prod.mk.injEq]
    exact ⟨by omega, rfl⟩



/-- Reading one escaped character undoes `jEscChar`. -/
theorem jStrBody_escChar (c : Char) (l : List Char) :
    jStrBody (jEscChar c ++ l)
      = (jStrBody l).map (fun st => (c :: st.1, st.2)) := by
  by_cases h1 : c = dq
  · subst h1
    (simp [jEscChar, jStrBody, jUnescChar, Option.bind]; try rfl)
  · by_cases h2 : c = '\\'
    · subst h2
      (simp [jEscChar, jStrBody, jUnescChar, Option.bind]; try rfl)
    · by_cases h3 : c = Char.ofNat 8
      · subst h3
        (simp [jEscChar, jStrBody, jUnescChar, Option.bind]; try rfl)
      · by_cases h4 : c = Char.ofNat 12
        · subst h4
          (simp [jEscChar, jStrBody, jUnescChar, Option.bind]; try rfl)
        · by_cases h5 : c = '\n'
          · subst h5
            (simp [jEscChar, jStrBody, jUnescChar, Option.bind]; try rfl)
          · by_cases h6 : c = '\r'
            · subst h6
              (simp [jEscChar, jStrBody, jUnescChar, Option.bind]; try rfl)
            · by_cases h7 : c = '\t'
              · subst h7
                (simp [jEscChar, jStrBody, jUnescChar, Option.bind]; try rfl)
              · by_cases h8 : c.toNat < 32
                · have hesc : jEscChar c
                      = ['\\', 'u', '0', '0', hexChar (c.toNat / 16),
                         hexChar (c.toNat % 16)] := by
                    simp [jEscChar, h1, h2, h3, h4, h5, h6, h7, h8]
                  rw [hesc]
                  simp only [List.cons_append, List.nil_append, jStrBody,
                    hex4Val,
                    show hexCharVal '0' = some 0 from rfl,
                    hexCharVal_hexChar _ (by omega : c.toNat / 16 < 16),
                    hexCharVal_hexChar _ (by omega : c.toNat % 16 < 16),
                    Option.bind, Option.map]
                  rw [show ((0 * 16 + 0) * 16 + c.toNat / 16) * 16
                        + c.toNat % 16 = c.toNat by omega,
                    Char.ofNat_toNat]
                  rfl
                · have hesc : jEscChar c = [c] := by
                    simp [jEscChar, h1, h2, h3, h4, h5, h6, h7, h8]
                  rw [hesc, List.cons_append, List.nil_append, jStrBody.eq_def]
                  split
                  · rename_i heq
                    cases heq
                  · rename_i h1' h2' h3' h4' heq
                    rw [List.cons.injEq] at heq
                    exact absurd heq.1 h2
                  · rename_i h1' h2' heq
                    rw [List.cons.injEq] at heq
                    exact absurd heq.1 h2
                  · rename_i h1' h2' h3' heq
                    rw [List.cons.injEq] at heq
                    obtain ⟨rfl, rfl⟩ := heq
                    rw [if_neg h1]

/-- Reading an escaped string body stops exactly at the closing quote. -/
theorem jStrBody_escape (s : List Char) (rest : List Char) :
    jStrBody (jEsc s ++ dq :: rest) = some (s, rest) := by
  induction s with
  | nil =>
      rw [jEsc, List.flatMap_nil, List.nil_append, jStrBody.eq_def]
      split
      · rename_i heq
        cases heq
      · rename_i h1' h2' h3' h4' heq
        rw [List.cons.injEq] at heq
        exact absurd heq.1 (by decide)
      · rename_i h1' h2' heq
        rw [List.cons.injEq] at heq
        exact absurd heq.1 (by decide)
      · rename_i h1' h2' h3' heq
        rw [List.cons.injEq] at heq
        obtain ⟨rfl, rfl⟩ := heq
        rw [if_pos rfl]
  | cons c t ih =>
      rw [jEsc, List.flatMap_cons, List.append_assoc]
      rw [show t.flatMap jEscChar ++ dq :: rest = jEsc t ++ dq :: rest from rfl]
      rw [jStrBody_escChar, ih]
      rfl



/-- Skipping whitespace passes over an all-whitespace prefix. -/
theorem skipWs_over_ws (ws l : List Char) (h : ∀ c ∈ ws, jIsWs c = true) :
    skipWs (ws ++ l) = skipWs l := by
  induction ws with
  | nil => rfl
  | cons c t ih =>
      rw [List.cons_append, skipWs, List.dropWhile_cons, h c (by simp)]
      exact ih (fun x hx => h x (by simp [hx]))

/-- Skipping whitespace stops at a non-whitespace head. -/
theorem skipWs_nonws (c : Char) (l : List Char) (h : jIsWs c = false) :
    skipWs (c :: l) = c :: l := by
  rw [skipWs, List.dropWhile_cons, h]
  rfl

/-- Indentation is all whitespace. -/
theorem pad_ws (n : Nat) : ∀ c ∈ pad n, jIsWs c = true := by
  intro c hc
  rw [pad, List.mem_replicate] at hc
  rw [hc.2]
  decide

/-- A newline then indentation is all whitespace. -/
theorem nl_pad_ws (n : Nat) : ∀ c ∈ '\n' :: pad n, jIsWs c = true := by
  intro c hc
  rcases List.mem_cons.mp hc with rfl | hc2
  · decide
  · exact pad_ws n c hc2

/-- Every rendered value starts with a structural, non-whitespace
character that closes nothing. -/
theorem jRender_head (lvl : Nat) (v : JVal) :
    ∃ c t, jRender lvl v = c :: t ∧ jIsWs c = false ∧ c ≠ ']' ∧ c ≠ rb := by
  cases v with
  | jnull =>
      exact ⟨'n', ['u', 'l', 'l'], by simp [jRender], by decide, by decide,
        by decide⟩
  | jbool b =>
      cases b with
      | true =>
          exact ⟨'t', ['r', 'u', 'e'], by simp [jRender], by decide,
            by decide, by decide⟩
      | false =>
          exact ⟨'f', ['a', 'l', 's', 'e'], by simp [jRender], by decide,
            by decide, by decide⟩
  | jint i =>
      by_cases hneg : i < 0
      · refine ⟨Char.ofNat 45, natDecL i.natAbs, ?_, by decide, by decide,
          by decide⟩
        simp [jRender, intDecL, hneg]
      · obtain ⟨c0, t0, h0, hd0⟩ := natDecL_head i.natAbs
        obtain ⟨hws, hbr, hbc, -⟩ := isDig_char_facts c0 hd0
        refine ⟨c0, t0 ++ [], ?_, hws, hbr, hbc⟩
        simp [jRender, intDecL, hneg, h0]
  | jstr s =>
      exact ⟨dq, jEsc s.data ++ [dq], by simp [jRender, jStrL], by decide,
        by decide, by decide⟩
  | jarr xs =>
      cases xs with
      | nil => exact ⟨'[', [']'], by simp [jRender], by decide, by decide,
          by decide⟩
      | cons v tl =>
          exact ⟨'[', '
' :: (pad (lvl + 1) ++ jRenderItems (lvl + 1) v tl
              ++ '
' :: (pad lvl ++ [']'])), by simp [jRender], by decide,
            by decide, by decide⟩
  | jobj ms =>
      cases ms with
      | nil => exact ⟨lb, [rb], by simp [jRender], by decide, by decide,
          by decide⟩
      | cons k v tl =>
          exact ⟨lb, '
' :: (pad (lvl + 1) ++ jRenderMembers (lvl + 1) k v tl
              ++ '
' :: (pad lvl ++ [rb])), by simp [jRender], by decide,
            by decide, by decide⟩

/-- Skipping whitespace is the identity on rendered output. -/
theorem skipWs_jRender (lvl : Nat) (v : JVal) (x : List Char) :
    skipWs (jRender lvl v ++ x) = jRender lvl v ++ x := by
  obtain ⟨c, t, hr, hws, -, -⟩ := jRender_head lvl v
  rw [hr, List.cons_append, skipWs_nonws _ _ hws]

/-- Skipping whitespace is the identity on a rendered item list. -/
theorem skipWs_jRenderItems (lvl : Nat) (v : JVal) (tl : JList) (x : List Char) :
    skipWs (jRenderItems lvl v tl ++ x) = jRenderItems lvl v tl ++ x := by
  cases tl with
  | nil =>
      rw [show jRenderItems lvl v JList.nil = jRender lvl v by
        simp [jRenderItems]]
      exact skipWs_jRender lvl v x
  | cons w tl2 =>
      rw [show jRenderItems lvl v (JList.cons w tl2)
          = jRender lvl v ++ ',' :: '\n' :: (pad lvl ++ jRenderItems lvl w tl2)
          by simp [jRenderItems], List.append_assoc]
      exact skipWs_jRender lvl v _

/-- Skipping whitespace is the identity on a rendered member list. -/
theorem skipWs_jRenderMembers (lvl : Nat) (k : String) (v : JVal) (tl : JObj)
    (x : List Char) :
    skipWs (jRenderMembers lvl k v tl ++ x) = jRenderMembers lvl k v tl ++ x := by
  cases tl with
  | nil =>
      rw [show jRenderMembers lvl k v JObj.nil
          = jStrL k ++ ':' :: ' ' :: jRender lvl v by simp [jRenderMembers],
        jStrL, List.cons_append, List.cons_append,
        skipWs_nonws _ _ (by decide)]
  | cons k2 v2 tl2 =>
      rw [show jRenderMembers lvl k v (JObj.cons k2 v2 tl2)
          = jStrL k ++ ':' :: ' ' :: (jRender lvl v
              ++ ',' :: '\n' :: (pad lvl ++ jRenderMembers lvl k2 v2 tl2))
          by simp [jRenderMembers],
        jStrL, List.cons_append, List.cons_append,
        skipWs_nonws _ _ (by decide)]



/-- Head lemma for rendered item lists. -/
theorem jRenderItems_head (lvl : Nat) (v : JVal) (tl : JList) :
    ∃ c t, jRenderItems lvl v tl = c :: t ∧ jIsWs c = false
      ∧ c ≠ ']' ∧ c ≠ rb := by
  obtain ⟨c, t, hr, h1, h2, h3⟩ := jRender_head lvl v
  cases tl with
  | nil => exact ⟨c, t, by simp [jRenderItems, hr], h1, h2, h3⟩
  | cons w tl2 =>
      exact ⟨c, t ++ ',' :: '\n' :: (pad lvl ++ jRenderItems lvl w tl2),
        by simp [jRenderItems, hr], h1, h2, h3⟩

/-- The parser's literal branches at successor fuel. -/
theorem jParseVal_null (f : Nat) (rest : List Char) :
    jParseVal (f + 1) ('n' :: 'u' :: 'l' :: 'l' :: rest)
      = some (.jnull, rest) := by
  simp only [jParseVal]
  rw [skipWs_nonws _ _ (by decide)]
  rfl

theorem jParseVal_true (f : Nat) (rest : List Char) :
    jParseVal (f + 1) ('t' :: 'r' :: 'u' :: 'e' :: rest)
      = some (.jbool true, rest) := by
  simp only [jParseVal]
  rw [skipWs_nonws _ _ (by decide)]
  rfl

theorem jParseVal_false (f : Nat) (rest : List Char) :
    jParseVal (f + 1) ('f' :: 'a' :: 'l' :: 's' :: 'e' :: rest)
      = some (.jbool false, rest) := by
  simp only [jParseVal]
  rw [skipWs_nonws _ _ (by decide)]
  rfl

/-- The parser's string branch at successor fuel. -/
theorem jParseVal_str (f : Nat) (r : List Char) :
    jParseVal (f + 1) (dq :: r)
      = (jStrBody r).map fun st => (JVal.jstr ⟨st.1⟩, st.2) := by
  simp only [jParseVal]
  rw [skipWs_nonws _ _ (by decide)]
  rfl

/-- The parser's array branch at successor fuel. -/
theorem jParseVal_arr (f : Nat) (r : List Char) :
    jParseVal (f + 1) ('[' :: r)
      = (match skipWs r with
         | [] => none
         | c2 :: t2 =>
             if c2 = ']' then some (.jarr .nil, t2)
             else (jParseItems f (c2 :: t2)).map fun st =>
               (JVal.jarr st.1, st.2)) := by
  simp only [jParseVal]
  rw [skipWs_nonws _ _ (by decide)]
  rfl

/-- The parser's object branch at successor fuel. -/
theorem jParseVal_obj (f : Nat) (r : List Char) :
    jParseVal (f + 1) (lb :: r)
      = (match skipWs r with
         | [] => none
         | c2 :: t2 =>
             if c2 = rb then some (.jobj .nil, t2)
             else (jParseMembers f (c2 :: t2)).map fun st =>
               (JVal.jobj st.1, st.2)) := by
  simp only [jParseVal]
  rw [skipWs_nonws _ _ (by decide)]
  rfl

/-- The parser's number branch at successor fuel. -/
theorem jParseVal_num (f : Nat) (c0 : Char) (t : List Char)
    (h1 : c0 ≠ 'n') (h2 : c0 ≠ 't') (h3 : c0 ≠ 'f') (h4 : c0 ≠ dq)
    (h5 : c0 ≠ '[') (h6 : c0 ≠ lb) (hws : jIsWs c0 = false)
    (hnum : c0 = Char.ofNat 45 ∨ isDig c0 = true) :
    jParseVal (f + 1) (c0 :: t)
      = (jNum (c0 :: t)).map fun st => (JVal.jint st.1, st.2) := by
  simp only [jParseVal]
  rw [skipWs_nonws _ _ hws]
  simp only [if_neg h1, if_neg h2, if_neg h3, if_neg h4, if_neg h5,
    if_neg h6, if_pos hnum]



/-- The head of an all-whitespace run followed by a closer is no digit. -/
theorem head_ws_close (ws rest : List Char) (cl : Char)
    (hws : ∀ c ∈ ws, jIsWs c = true) (hcl : isDig cl = false) :
    ∀ c, (ws ++ cl :: rest).head? = some c → isDig c = false := by
  intro c hc
  cases ws with
  | nil =>
      rw [List.nil_append, List.head?_cons, Option.some.injEq] at hc
      rw [← hc]
      exact hcl
  | cons w t =>
      rw [List.cons_append, List.head?_cons, Option.some.injEq] at hc
      rw [← hc]
      exact ws_not_dig w (hws w (by simp))

/-- Whitespace then a non-whitespace closer skips to the closer. -/
theorem skipWs_ws_close (ws rest : List Char) (cl : Char)
    (hws : ∀ c ∈ ws, jIsWs c = true) (hcl : jIsWs cl = false) :
    skipWs (ws ++ cl :: rest) = cl :: rest := by
  rw [skipWs_over_ws _ _ hws, skipWs_nonws _ _ hcl]

/-- The head of a cons is no digit when its head character is not. -/
theorem head_cons_not_dig (c : Char) (l : List Char) (h : isDig c = false) :
    ∀ c2, ((c :: l).head? = some c2) → isDig c2 = false := by
  intro c2 hc
  rw [List.head?_cons, Option.some.injEq] at hc
  rw [← hc]
  exact h

/-- A single blank is whitespace. -/
theorem single_space_ws : ∀ c ∈ [' '], jIsWs c = true := by
  intro c hc
  rw [List.mem_singleton] at hc
  rw [hc]
  decide

mutual
/-- Round-trip of one rendered value: the `loads` model undoes the `dumps`
model, leaving the remainder untouched, whenever the fuel covers the
rendered text and the remainder cannot extend a number. -/
theorem jrt_val : ∀ (v : JVal) (lvl fuel : Nat) (rest : List Char),
    (jRender lvl v).length < fuel →
    (∀ c, rest.head? = some c → isDig c = false) →
    jParseVal fuel (jRender lvl v ++ rest) = some (v, rest)
  | .jnull, lvl, fuel, rest, hf, _ => by
      cases fuel with
      | zero => exact absurd hf (Nat.not_lt_zero _)
      | succ f =>
          rw [show jRender lvl .jnull ++ rest = 'n' :: 'u' :: 'l' :: 'l' :: rest
            by simp [jRender]]
          exact jParseVal_null f rest
  | .jbool true, lvl, fuel, rest, hf, _ => by
      cases fuel with
      | zero => exact absurd hf (Nat.not_lt_zero _)
      | succ f =>
          rw [show jRender lvl (.jbool true) ++ rest
              = 't' :: 'r' :: 'u' :: 'e' :: rest by simp [jRender]]
          exact jParseVal_true f rest
  | .jbool false, lvl, fuel, rest, hf, _ => by
      cases fuel with
      | zero => exact absurd hf (Nat.not_lt_zero _)
      | succ f =>
          rw [show jRender lvl (.jbool false) ++ rest
              = 'f' :: 'a' :: 'l' :: 's' :: 'e' :: rest by simp [jRender]]
          exact jParseVal_false f rest
  | .jint i, lvl, fuel, rest, hf, hrest => by
      cases fuel with
      | zero => exact absurd hf (Nat.not_lt_zero _)
      | succ f =>
          rw [show jRender lvl (.jint i) ++ rest = intDecL i ++ rest
            by simp [jRender]]
          by_cases hneg : i < 0
          · have harg : intDecL i ++ rest
                = Char.ofNat 45 :: (natDecL i.natAbs ++ rest) := by
              simp [intDecL, hneg]
            rw [harg,
              jParseVal_num f _ _ (by decide) (by decide) (by decide)
                (by decide) (by decide) (by decide) (by decide)
                (Or.inl rfl),
              ← harg, jNum_intDec i rest hrest]
            rfl
          · obtain ⟨c0, t0, h0, hd0⟩ := natDecL_head i.natAbs
            obtain ⟨hws, -, -, -, hn, ht, hfc, hq, hbk, hbc, -, -⟩ :=
              isDig_char_facts c0 hd0
            have harg : intDecL i ++ rest = c0 :: (t0 ++ rest) := by
              simp [intDecL, hneg, h0]
            rw [harg,
              jParseVal_num f _ _ hn ht hfc hq hbk hbc hws (Or.inr hd0),
              ← harg, jNum_intDec i rest hrest]
            rfl
  | .jstr s, lvl, fuel, rest, hf, _ => by
      cases fuel with
      | zero => exact absurd hf (Nat.not_lt_zero _)
      | succ f =>
          rw [show jRender lvl (.jstr s) ++ rest
              = dq :: (jEsc s.data ++ dq :: rest) by simp [jRender, jStrL],
            jParseVal_str, jStrBody_escape]
          rfl
  | .jarr .nil, lvl, fuel, rest, hf, _ => by
      cases fuel with
      | zero => exact absurd hf (Nat.not_lt_zero _)
      | succ f =>
          rw [show jRender lvl (.jarr .nil) ++ rest = '[' :: (']' :: rest)
              by simp [jRender],
            jParseVal_arr, skipWs_nonws _ _ (by decide)]
          rfl
  | .jarr (.cons v tl), lvl, fuel, rest, hf, _ => by
      cases fuel with
      | zero => exact absurd hf (Nat.not_lt_zero _)
      | succ f =>
          have hfuel : (jRenderItems (lvl + 1) v tl).length + 1 < f := by
            rw [show jRender lvl (.jarr (.cons v tl))
                = '[' :: '\n' :: (pad (lvl + 1)
                    ++ jRenderItems (lvl + 1) v tl
                    ++ '\n' :: (pad lvl ++ [']'])) by simp [jRender]] at hf
            simp only [List.length_cons, List.length_append, pad,
              List.length_replicate] at hf
            omega
          have harg : jRender lvl (.jarr (.cons v tl)) ++ rest
              = '[' :: (('\n' :: pad (lvl + 1))
                  ++ (jRenderItems (lvl + 1) v tl
                    ++ (('\n' :: pad lvl) ++ ']' :: rest))) := by
            simp [jRender]
          rw [harg, jParseVal_arr,
            skipWs_over_ws _ _ (nl_pad_ws (lvl + 1)),
            skipWs_jRenderItems]
          obtain ⟨c, t, hi, hcws, hbr, -⟩ := jRenderItems_head (lvl + 1) v tl
          rw [hi, List.cons_append]
          split
          · rename_i heq
            simp at heq
          · rename_i c2 t2 heq
            rw [List.cons.injEq] at heq
            obtain ⟨h1, h2⟩ := heq
            subst h1
            subst h2
            rw [if_neg hbr, ← List.cons_append, ← hi,
              jrt_items v tl (lvl + 1) f ('\n' :: pad lvl) rest hfuel
                (nl_pad_ws lvl)]
            rfl
  | .jobj .nil, lvl, fuel, rest, hf, _ => by
      cases fuel with
      | zero => exact absurd hf (Nat.not_lt_zero _)
      | succ f =>
          rw [show jRender lvl (.jobj .nil) ++ rest = lb :: (rb :: rest)
              by simp [jRender],
            jParseVal_obj, skipWs_nonws _ _ (by decide)]
          rfl
  | .jobj (.cons k v tl), lvl, fuel, rest, hf, _ => by
      cases fuel with
      | zero => exact absurd hf (Nat.not_lt_zero _)
      | succ f =>
          have hfuel : (jRenderMembers (lvl + 1) k v tl).length + 1 < f := by
            rw [show jRender lvl (.jobj (.cons k v tl))
                = lb :: '\n' :: (pad (lvl + 1)
                    ++ jRenderMembers (lvl + 1) k v tl
                    ++ '\n' :: (pad lvl ++ [rb])) by simp [jRender]] at hf
            simp only [List.length_cons, List.length_append, pad,
              List.length_replicate] at hf
            omega
          have harg : jRender lvl (.jobj (.cons k v tl)) ++ rest
              = lb :: (('\n' :: pad (lvl + 1))
                  ++ (jRenderMembers (lvl + 1) k v tl
                    ++ (('\n' :: pad lvl) ++ rb :: rest))) := by
            simp [jRender]
          rw [harg, jParseVal_obj,
            skipWs_over_ws _ _ (nl_pad_ws (lvl + 1)),
            skipWs_jRenderMembers]
          have hmemhead : ∃ t2, jRenderMembers (lvl + 1) k v tl = dq :: t2 := by
            cases tl with
            | nil =>
                exact ⟨jEsc k.data ++ [dq] ++ ':' :: ' ' :: jRender (lvl + 1) v,
                  by simp [jRenderMembers, jStrL]⟩
            | cons k2 v2 tl2 =>
                exact ⟨jEsc k.data ++ [dq] ++ ':' :: ' ' :: (jRender (lvl + 1) v
                    ++ ',' :: '\n' :: (pad (lvl + 1)
                      ++ jRenderMembers (lvl + 1) k2 v2 tl2)),
                  by simp [jRenderMembers, jStrL]⟩
          obtain ⟨t2, hm⟩ := hmemhead
          rw [hm, List.cons_append]
          split
          · rename_i heq
            simp at heq
          · rename_i c2 t3 heq
            rw [List.cons.injEq] at heq
            obtain ⟨h1, h2⟩ := heq
            subst h1
            subst h2
            rw [if_neg (by decide), ← List.cons_append, ← hm,
              jrt_members k v tl (lvl + 1) f ('\n' :: pad lvl) rest hfuel
                (nl_pad_ws lvl)]
            rfl
termination_by v _ _ _ _ _ => sizeOf v

/-- Round-trip of a rendered non-empty item list followed by whitespace
and the closing bracket. -/
theorem jrt_items : ∀ (v : JVal) (tl : JList) (lvl fuel : Nat)
    (ws rest : List Char),
    (jRenderItems lvl v tl).length + 1 < fuel →
    (∀ c ∈ ws, jIsWs c = true) →
    jParseItems fuel (jRenderItems lvl v tl ++ (ws ++ ']' :: rest))
      = some (.cons v tl, rest)
  | v, .nil, lvl, fuel, ws, rest, hf, hws => by
      cases fuel with
      | zero => exact absurd hf (Nat.not_lt_zero _)
      | succ f =>
          have hitem : jRenderItems lvl v JList.nil = jRender lvl v := by
            simp [jRenderItems]
          have hfv : (jRender lvl v).length < f := by
            rw [hitem] at hf
            omega
          simp only [jParseItems]
          rw [hitem, jrt_val v lvl f (ws ++ ']' :: rest) hfv
              (head_ws_close ws rest ']' hws (by decide))]
          simp only [Option.bind]
          rw [skipWs_ws_close ws rest ']' hws (by decide)]
          split
          · rename_i heq
            simp at heq
          · rename_i c2 r2 heq
            rw [List.cons.injEq] at heq
            obtain ⟨h1, h2⟩ := heq
            subst h1
            subst h2
            rw [if_neg (by decide), if_pos rfl]
  | v, .cons w tl, lvl, fuel, ws, rest, hf, hws => by
      cases fuel with
      | zero => exact absurd hf (Nat.not_lt_zero _)
      | succ f =>
          have hitem : jRenderItems lvl v (.cons w tl)
              = jRender lvl v
                ++ ',' :: '\n' :: (pad lvl ++ jRenderItems lvl w tl) := by
            simp [jRenderItems]
          have hfv : (jRender lvl v).length < f := by
            rw [hitem] at hf
            simp only [List.length_append, List.length_cons] at hf
            omega
          have hftl : (jRenderItems lvl w tl).length + 1 < f := by
            rw [hitem] at hf
            simp only [List.length_append, List.length_cons] at hf
            omega
          have harg : jRenderItems lvl v (.cons w tl) ++ (ws ++ ']' :: rest)
              = jRender lvl v ++ (',' :: '\n' :: (pad lvl
                  ++ (jRenderItems lvl w tl ++ (ws ++ ']' :: rest)))) := by
            rw [hitem]
            simp [List.append_assoc]
          simp only [jParseItems]
          rw [harg, jrt_val v lvl f _ hfv
              (head_cons_not_dig ',' _ (by decide))]
          simp only [Option.bind]
          rw [skipWs_nonws _ _ (by decide)]
          split
          · rename_i heq
            simp at heq
          · rename_i c2 r2 heq
            rw [List.cons.injEq] at heq
            obtain ⟨h1, h2⟩ := heq
            subst h1
            subst h2
            rw [if_pos rfl,
              show skipWs ('\n' :: (pad lvl
                  ++ (jRenderItems lvl w tl ++ (ws ++ ']' :: rest))))
                = jRenderItems lvl w tl ++ (ws ++ ']' :: rest) by
                rw [show ('\n' :: (pad lvl
                    ++ (jRenderItems lvl w tl ++ (ws ++ ']' :: rest))))
                    = ('\n' :: pad lvl)
                      ++ (jRenderItems lvl w tl ++ (ws ++ ']' :: rest)) by
                  simp,
                  skipWs_over_ws _ _ (nl_pad_ws lvl), skipWs_jRenderItems],
              jrt_items w tl lvl f ws rest hftl hws]
            rfl
termination_by v tl _ _ _ _ _ _ => sizeOf v + sizeOf tl

/-- Round-trip of a rendered non-empty member list followed by whitespace
and the closing brace. -/
theorem jrt_members : ∀ (k : String) (v : JVal) (tl : JObj) (lvl fuel : Nat)
    (ws rest : List Char),
    (jRenderMembers lvl k v tl).length + 1 < fuel →
    (∀ c ∈ ws, jIsWs c = true) →
    jParseMembers fuel (jRenderMembers lvl k v tl ++ (ws ++ rb :: rest))
      = some (.cons k v tl, rest)
  | k, v, .nil, lvl, fuel, ws, rest, hf, hws => by
      cases fuel with
      | zero => exact absurd hf (Nat.not_lt_zero _)
      | succ f =>
          have hmem : jRenderMembers lvl k v JObj.nil
              = jStrL k ++ ':' :: ' ' :: jRender lvl v := by
            simp [jRenderMembers]
          have hfv : (jRender lvl v).length < f := by
            rw [hmem] at hf
            simp only [List.length_append, List.length_cons] at hf
            omega
          have harg : jRenderMembers lvl k v JObj.nil ++ (ws ++ rb :: rest)
              = dq :: (jEsc k.data
                  ++ dq :: (':' :: ' ' :: (jRender lvl v
                    ++ (ws ++ rb :: rest)))) := by
            rw [hmem, jStrL]
            simp [List.append_assoc]
          simp only [jParseMembers]
          rw [harg, skipWs_nonws _ _ (by decide)]
          split
          · rename_i heq
            simp at heq
          · rename_i c2 r2 heq
            rw [List.cons.injEq] at heq
            obtain ⟨h1, h2⟩ := heq
            subst h1
            subst h2
            rw [if_pos rfl, jStrBody_escape]
            simp only [Option.bind]
            rw [skipWs_nonws _ _ (by decide)]
            split
            · rename_i heq2
              simp at heq2
            · rename_i c3 r3 heq2
              rw [List.cons.injEq] at heq2
              obtain ⟨h3, h4⟩ := heq2
              subst h3
              subst h4
              rw [if_pos rfl,
                show skipWs (' ' :: (jRender lvl v ++ (ws ++ rb :: rest)))
                  = jRender lvl v ++ (ws ++ rb :: rest) by
                  rw [show (' ' :: (jRender lvl v ++ (ws ++ rb :: rest)))
                      = [' '] ++ (jRender lvl v ++ (ws ++ rb :: rest)) by simp,
                    skipWs_over_ws _ _ single_space_ws,
                    skipWs_jRender],
                jrt_val v lvl f (ws ++ rb :: rest) hfv
                  (head_ws_close ws rest rb hws (by decide))]
              simp only [Option.bind]
              rw [skipWs_ws_close ws rest rb hws (by decide)]
              split
              · rename_i heq3
                simp at heq3
              · rename_i c4 r4 heq3
                rw [List.cons.injEq] at heq3
                obtain ⟨h5, h6⟩ := heq3
                subst h5
                subst h6
                rw [if_neg (by decide), if_pos rfl]
  | k, v, .cons k2 v2 tl, lvl, fuel, ws, rest, hf, hws => by
      cases fuel with
      | zero => exact absurd hf (Nat.not_lt_zero _)
      | succ f =>
          have hmem : jRenderMembers lvl k v (.cons k2 v2 tl)
              = jStrL k ++ ':' :: ' ' :: (jRender lvl v
                  ++ ',' :: '\n' :: (pad lvl
                    ++ jRenderMembers lvl k2 v2 tl)) := by
            simp [jRenderMembers]
          have hfv : (jRender lvl v).length < f := by
            rw [hmem] at hf
            simp only [List.length_append, List.length_cons] at hf
            omega
          have hftl : (jRenderMembers lvl k2 v2 tl).length + 1 < f := by
            rw [hmem] at hf
            simp only [List.length_append, List.length_cons] at hf
            omega
          have harg : jRenderMembers lvl k v (.cons k2 v2 tl)
                ++ (ws ++ rb :: rest)
              = dq :: (jEsc k.data
                  ++ dq :: (':' :: ' ' :: (jRender lvl v
                    ++ (',' :: '\n' :: (pad lvl
                      ++ (jRenderMembers lvl k2 v2 tl
                        ++ (ws ++ rb :: rest))))))) := by
            rw [hmem, jStrL]
            simp [List.append_assoc]
          simp only [jParseMembers]
          rw [harg, skipWs_nonws _ _ (by decide)]
          split
          · rename_i heq
            simp at heq
          · rename_i c2' r2 heq
            rw [List.cons.injEq] at heq
            obtain ⟨h1, h2⟩ := heq
            subst h1
            subst h2
            rw [if_pos rfl, jStrBody_escape]
            simp only [Option.bind]
            rw [skipWs_nonws _ _ (by decide)]
            split
            · rename_i heq2
              simp at heq2
            · rename_i c3 r3 heq2
              rw [List.cons.injEq] at heq2
              obtain ⟨h3, h4⟩ := heq2
              subst h3
              subst h4
              rw [if_pos rfl,
                show skipWs (' ' :: (jRender lvl v
                    ++ (',' :: '\n' :: (pad lvl
                      ++ (jRenderMembers lvl k2 v2 tl ++ (ws ++ rb :: rest))))))
                  = jRender lvl v ++ (',' :: '\n' :: (pad lvl
                      ++ (jRenderMembers lvl k2 v2 tl
                        ++ (ws ++ rb :: rest)))) by
                  rw [show (' ' :: (jRender lvl v
                      ++ (',' :: '\n' :: (pad lvl
                        ++ (jRenderMembers lvl k2 v2 tl
                          ++ (ws ++ rb :: rest))))))
                      = [' '] ++ (jRender lvl v
                        ++ (',' :: '\n' :: (pad lvl
                          ++ (jRenderMembers lvl k2 v2 tl
                            ++ (ws ++ rb :: rest))))) by simp,
                    skipWs_over_ws _ _ single_space_ws,
                    skipWs_jRender],
                jrt_val v lvl f _ hfv (head_cons_not_dig ',' _ (by decide))]
              simp only [Option.bind]
              rw [skipWs_nonws _ _ (by decide)]
              split
              · rename_i heq3
                simp at heq3
              · rename_i c4 r4 heq3
                rw [List.cons.injEq] at heq3
                obtain ⟨h5, h6⟩ := heq3
                subst h5
                subst h6
                rw [if_pos rfl,
                  show skipWs ('\n' :: (pad lvl
                      ++ (jRenderMembers lvl k2 v2 tl ++ (ws ++ rb :: rest))))
                    = jRenderMembers lvl k2 v2 tl ++ (ws ++ rb :: rest) by
                    rw [show ('\n' :: (pad lvl
                        ++ (jRenderMembers lvl k2 v2 tl ++ (ws ++ rb :: rest))))
                        = ('\n' :: pad lvl)
                          ++ (jRenderMembers lvl k2 v2 tl
                            ++ (ws ++ rb :: rest)) by simp,
                      skipWs_over_ws _ _ (nl_pad_ws lvl),
                      skipWs_jRenderMembers],
                  jrt_members k2 v2 tl lvl f ws rest hftl hws]
                rfl
termination_by k v tl _ _ _ _ _ _ => sizeOf v + sizeOf tl
end



/-- The full-document codec round-trip: the `json.loads` model undoes the
`json.dumps` model on every value. -/
theorem jLoads_jDumps (v : JVal) : jLoads (jDumps v) = some v := by
  have h := jrt_val v 0 ((jRender 0 v).length + 1) [] (by omega)
    (by intro c hc; cases hc)
  rw [List.append_nil] at h
  rw [jLoads, jDumps, h]
  rfl

/-- Looking up a just-stored key finds the stored value. -/
theorem assocSet_lookup_self {κ α : Type} [DecidableEq κ] [BEq κ] [LawfulBEq κ]
    (m : List (κ × α)) (k : κ) (v : α) :
    List.lookup k (assocSet m k v) = some v := by
  induction m with
  | nil => simp [assocSet, List.lookup]
  | cons a t ih =>
      obtain ⟨k0, v0⟩ := a
      rw [assocSet]
      by_cases h : k0 = k
      · subst h
        simp [List.lookup]
      · rw [if_neg h, List.lookup]
        have hbeq : (k == k0) = false := by
          rw [beq_eq_false_iff_ne]
          exact fun hk => h hk.symm
        rw [hbeq]
        exact ih

/-- Characters at or above the blank that are neither the quote nor the
backslash are kept verbatim by the JSON escape. -/
theorem jEsc_verbatim (s : List Char)
    (h : ∀ c ∈ s, 32 ≤ c.toNat ∧ c ≠ dq ∧ c ≠ '\\') : jEsc s = s := by
  induction s with
  | nil => rfl
  | cons c t ih =>
      obtain ⟨hge, hq, hb⟩ := h c (by simp)
      have hesc : jEscChar c = [c] := by
        have h8 : c ≠ Char.ofNat 8 := by
          intro heq
          rw [heq] at hge
          revert hge
          decide
        have h12 : c ≠ Char.ofNat 12 := by
          intro heq
          rw [heq] at hge
          revert hge
          decide
        have hn : c ≠ '\n' := by
          intro heq
          rw [heq] at hge
          revert hge
          decide
        have hr : c ≠ '\r' := by
          intro heq
          rw [heq] at hge
          revert hge
          decide
        have ht : c ≠ '\t' := by
          intro heq
          rw [heq] at hge
          revert hge
          decide
        simp [jEscChar, hq, hb, h8, h12, hn, hr, ht, Nat.not_lt.mpr hge]
      rw [jEsc, List.flatMap_cons, hesc,
        show t.flatMap jEscChar = jEsc t from rfl,
        ih (fun x hx => h x (by simp [hx]))]
      rfl

/-- C5: for every destination whose parent exists and every detail list,
`write_pair_results` succeeds, the file holds exactly
`json.dumps(payload, ensure_ascii=False, indent=2)` for the payload
`pairs ↦ details`, and parsing the file back with the `json.loads` model
yields a value deep-equal to that payload; moreover every character at or
above the blank other than the quote and the backslash — all non-ASCII
text included — is written verbatim, not escaped. -/
theorem claim_C5_detail_roundtrip :
    (∀ (fs : FS) (path : List String) (details : JList),
      parentOk fs path = true →
      ∃ fs2, writePairResults fs path details = .ok fs2
        ∧ fsRead fs2 path = some (jDumps (pairsPayload details))
        ∧ jLoads (jDumps (pairsPayload details)) = some (pairsPayload details))
    ∧ (∀ s : List Char,
        (∀ c ∈ s, 32 ≤ c.toNat ∧ c ≠ dq ∧ c ≠ '\\') → jEsc s = s) := by
  refine ⟨fun fs path details hok => ?_, jEsc_verbatim⟩
  refine ⟨⟨fs.dirs, assocSet fs.files path (jDumps (pairsPayload details))⟩,
    ?_, ?_, jLoads_jDumps _⟩
  · rw [writePairResults, fsWrite, if_pos hok]
  · rw [fsRead]
    exact assocSet_lookup_self ..

/-- Witness for C5 at a concrete record with non-ASCII excerpt text. -/
theorem claim_C5_detail_roundtrip_witness :
    (∃ fs2, writePairResults emptyFS ["pair_results.json"]
        (.cons (.jobj (.cons "pair"
          (.jarr (.cons (.jstr "甲") (.cons (.jstr "乙") .nil)))
          (.cons "hits" (.jarr .nil) .nil))) .nil) = .ok fs2
      ∧ fsRead fs2 ["pair_results.json"]
          = some (jDumps (pairsPayload (.cons (.jobj (.cons "pair"
              (.jarr (.cons (.jstr "甲") (.cons (.jstr "乙") .nil)))
              (.cons "hits" (.jarr .nil) .nil))) .nil)))
      ∧ jLoads (jDumps (pairsPayload (.cons (.jobj (.cons "pair"
          (.jarr (.cons (.jstr "甲") (.cons (.jstr "乙") .nil)))
          (.cons "hits" (.jarr .nil) .nil))) .nil)))
          = some (pairsPayload (.cons (.jobj (.cons "pair"
              (.jarr (.cons (.jstr "甲") (.cons (.jstr "乙") .nil)))
              (.cons "hits" (.jarr .nil) .nil))) .nil)))
    ∧ jEsc "甲乙".data = "甲乙".data := by
  constructor
  · exact claim_C5_detail_roundtrip.1 emptyFS ["pair_results.json"] _ rfl
  · exact claim_C5_detail_roundtrip.2 "甲乙".data (by decide)

end PlagiarismReporting
